import Mathlib

/-!
Shallow embedding of the core matching engine of ProfileMapperAPI
(`src/matching.ts`), together with theorems checking the natural-language
specification against it.

Modelling conventions:
* JavaScript strings are modelled as `List Char` (sequences of Unicode code
  points); `toLowerCase` is modelled by ASCII case folding, `trim` by
  stripping leading/trailing whitespace characters.
* JavaScript numbers are modelled as exact rationals `ℚ`; all score
  arithmetic in the source stays well within the range where IEEE doubles
  behave like the rationals modelled here.
* `undefined` optional arguments are modelled by `Option`; JavaScript string
  falsiness (`!s`, true exactly for the empty string) is modelled explicitly.
* Reading the wall clock (`new Date().getFullYear()`) is modelled by an
  explicit `currentYear` parameter.
-/

namespace ProfileMapper

/-- JavaScript strings as lists of Unicode code points. -/
abbrev Str := List Char

/-- Whitespace characters recognised by the model (the common ASCII subset of
JavaScript's `\s` and `trim`). -/
def jsWS (c : Char) : Bool :=
  c == ' ' || c == '\t' || c == '\n' || c == '\r'

/-- Model of `String.prototype.trim`: strip leading and trailing whitespace. -/
def jsTrim (s : Str) : Str :=
  ((s.dropWhile jsWS).reverse.dropWhile jsWS).reverse

/-- Model of `String.prototype.toLowerCase` (ASCII case folding). -/
def lowerStr (s : Str) : Str := s.map Char.toLower

/-- Helper for `words`: accumulate the current token (reversed) while
scanning. -/
def wordsGo : Str → Str → List Str
  | [], acc => if acc.isEmpty then [] else [acc.reverse]
  | c :: cs, acc =>
    if jsWS c then
      (if acc.isEmpty then wordsGo cs [] else acc.reverse :: wordsGo cs [])
    else wordsGo cs (c :: acc)

/-- Model of `s.split(/\s+/).filter(Boolean)`: the maximal whitespace-free
runs of `s`, in order. -/
def words (s : Str) : List Str := wordsGo s []

/-- Decides whether the first list is a prefix of the second
(`String.prototype.startsWith`). -/
def isPrefixL : Str → Str → Bool
  | [], _ => true
  | _ :: _, [] => false
  | c :: cs, d :: ds => c == d && isPrefixL cs ds

/-- Model of `hay.includes(needle)`: contiguous substring containment.
`jsIncludes hay []` is `true`, as in JavaScript. -/
def jsIncludes : Str → Str → Bool
  | [], needle => needle.isEmpty
  | c :: t, needle => isPrefixL needle (c :: t) || jsIncludes t needle

/-! ## Levenshtein distance

The source (`levenshtein` in `matching.ts`) fills the classic dynamic
programming matrix row by row: `matrix[i][j]` is the distance between the
length-`i` prefix of `b` and the length-`j` prefix of `a`.  The embedding
below keeps one row at a time, exactly as the loop produces it:
`levCells` computes the interior of the next row left to right, `levStep`
prepends the first column entry, and `levenshtein` folds `levStep` over `b`
starting from the row `[0, 1, ..., a.length]`. -/

/-- Interior cells of one DP row.  Arguments: the remaining characters of
`a`, the cell to the left in the current row, and the previous row starting
at the diagonal position.  Each cell is
`if aChar = bChar then diag else min (diag+1) (min (left+1) (up+1))`,
mirroring the source's ternary and `Math.min` order. -/
def levCells (y : Char) : List Char → Nat → List Nat → List Nat
  | [], _, _ => []
  | c :: as_, left, diag :: up :: rest =>
    let cell := if c = y then diag else min (diag + 1) (min (left + 1) (up + 1))
    cell :: levCells y as_ cell (up :: rest)
  | _ :: _, _, _ => []

/-- One row update of the DP: the first column is `previous first + 1`
(`matrix[i][0] = i`), the rest comes from `levCells`. -/
def levStep (a : List Char) (prev : List Nat) (y : Char) : List Nat :=
  match prev with
  | [] => []
  | d :: rest => (d + 1) :: levCells y a (d + 1) (d :: rest)

/-- Model of the source's `levenshtein`: row-by-row dynamic programming, the
answer being the last entry of the final row (`matrix[b.length][a.length]`). -/
def levenshtein (a b : List Char) : Nat :=
  (b.foldl (levStep a) (List.range (a.length + 1))).getLastD 0

/-- Classic unit-cost Levenshtein edit distance (insert / delete /
substitute, unit cost each), written as the textbook recursion over code
points.  This is the reference definition following the specification's
words; `levenshtein_eq_levClassic` proves the source's dynamic program
computes it. -/
def levClassic : List Char → List Char → Nat
  | [], ys => ys.length
  | _ :: xs, [] => xs.length + 1
  | x :: xs, y :: ys =>
    if x = y then levClassic xs ys
    else min (levClassic xs ys + 1)
      (min (levClassic xs (y :: ys) + 1) (levClassic (x :: xs) ys + 1))
termination_by xs ys => xs.length + ys.length
decreasing_by all_goals (simp only [List.length_cons]; omega)

/-- Intended value of the DP row for column list `as_` after consuming (the
reverse of) `w` from `b`: distances from the reversed prefixes of `a` to
`w`, where `u` is the reversed prefix already accounted for. -/
def rowFrom (w : List Char) : List Char → List Char → List Nat
  | u, [] => [levClassic u w]
  | u, c :: as_ => levClassic u w :: rowFrom w (c :: u) as_

/-! ## String similarity -/

/-- Model of `similarity` in `matching.ts`: trimmed inputs, 0 when either
trim is empty, otherwise `1 - levenshtein(lower a, lower b) / maxLen` with
`maxLen` the longer trimmed length. -/
def similarity (a b : Str) : ℚ :=
  let trimA := jsTrim a
  let trimB := jsTrim b
  if trimA.isEmpty || trimB.isEmpty then 0
  else
    let maxLen := max trimA.length trimB.length
    if maxLen = 0 then 0
    else 1 - (levenshtein (lowerStr trimA) (lowerStr trimB) : ℚ) / (maxLen : ℚ)

/-! ## Nickname mapping -/

/-- The `NICKNAMES` table of `matching.ts`. -/
def NICKNAMES : List (Str × List Str) :=
  [ ("william".toList, ["will".toList, "bill".toList, "billy".toList]),
    ("robert".toList, ["rob".toList, "bob".toList, "bobby".toList]),
    ("richard".toList, ["rick".toList, "dick".toList, "rich".toList]),
    ("james".toList, ["jim".toList, "jimmy".toList, "jamie".toList]),
    ("michael".toList, ["mike".toList, "mikey".toList]),
    ("elizabeth".toList, ["liz".toList, "beth".toList, "lizzy".toList, "betty".toList]),
    ("jennifer".toList, ["jen".toList, "jenny".toList]),
    ("margaret".toList, ["maggie".toList, "meg".toList, "peggy".toList]),
    ("katherine".toList, ["kate".toList, "kathy".toList, "katie".toList]),
    ("jonathan".toList, ["jon".toList, "john".toList, "johnny".toList]),
    ("christopher".toList, ["chris".toList]),
    ("nicholas".toList, ["nick".toList]),
    ("alexander".toList, ["alex".toList]),
    ("benjamin".toList, ["ben".toList]),
    ("daniel".toList, ["dan".toList, "danny".toList]),
    ("matthew".toList, ["matt".toList]),
    ("anthony".toList, ["tony".toList]),
    ("joseph".toList, ["joe".toList, "joey".toList]),
    ("david".toList, ["dave".toList]) ]

/-- Model of `areNicknameVariants`: case-folded equality, or joint
membership in the variant closure (formal name plus variants) of one table
entry. -/
def areNicknameVariants (n1 n2 : Str) : Bool :=
  let a := lowerStr n1
  let b := lowerStr n2
  a == b ||
    NICKNAMES.any (fun e => (e.1 :: e.2).contains a && (e.1 :: e.2).contains b)

/-! ## Location aliases -/

/-- The `LOCATION_ALIASES` table of `matching.ts`. -/
def LOCATION_ALIASES : List (Str × List Str) :=
  [ ("san francisco".toList, ["sf".toList, "bay area".toList, "sf bay area".toList]),
    ("new york".toList, ["nyc".toList, "new york city".toList, "ny".toList, "manhattan".toList]),
    ("los angeles".toList, ["la".toList, "socal".toList]) ]

/-- Model of `normalizeLocation`: case-fold, turn periods and commas into
spaces, collapse whitespace runs to single spaces, trim (rendered as
rejoining the whitespace-separated words with single spaces). -/
def normalizeLocation (s : Str) : Str :=
  List.intercalate ([' '])
    (words (List.map (fun c => if c == '.' || c == ',' then ' ' else c) (lowerStr s)))

/-- Model of `matchLocationAlias`: some table entry has one of its strings
contained in each normalized input. -/
def matchLocationAlias (loc1 loc2 : Str) : Bool :=
  let n1 := normalizeLocation loc1
  let n2 := normalizeLocation loc2
  LOCATION_ALIASES.any (fun e =>
    (e.1 :: e.2).any (fun a => jsIncludes n1 a) &&
    (e.1 :: e.2).any (fun a => jsIncludes n2 a))

/-! ## Phone and date helpers -/

/-- Model of `normalizePhone`: strip non-digits, keep the last 10 digits. -/
def normalizePhone (phone : Str) : Str :=
  let ds := phone.filter Char.isDigit
  ds.drop (ds.length - 10)

/-- Numeric value of a digit string. -/
def natFromDigits (s : Str) : Nat :=
  s.foldl (fun a c => a * 10 + (c.toNat - 48)) 0

/-- Modelled from the spec: `parseDate` delegates to JavaScript's permissive
`new Date(string)` parser, of which the specification only requires
"permissive calendar-date parsing; unparseable → 0" and the birth year via
`getFullYear()`.  Modelled here for ISO-style `YYYY-...` strings as reading
a leading four-digit year, with `none` for anything else (unparseable). -/
def parseYear (s : Str) : Option Int :=
  if (s.take 4).length == 4 && (s.take 4).all Char.isDigit then
    some (natFromDigits (s.take 4) : Int)
  else none

/-- Case-insensitive prefix test against a lowercase pattern. -/
def ciHasPre (pat s : Str) : Bool := isPrefixL pat (lowerStr s)

/-- Reads `\d{4}` at the head of the string, if present. -/
def fourDigitsAt (r : Str) : Option Nat :=
  if decide (4 ≤ r.length) && (r.take 4).all Char.isDigit then
    some (natFromDigits (r.take 4))
  else none

/-- Matches the regex `/born\s+(?:in\s+)?(\d{4})/i` anchored at the head of
the string, returning the captured year. -/
def bornAt (l : Str) : Option Nat :=
  if ciHasPre ("born".toList) l then
    let r := l.drop 4
    let r1 := r.dropWhile jsWS
    if r1.length == r.length then none
    else if ciHasPre ("in".toList) r1 then
      let r2 := r1.drop 2
      let r3 := r2.dropWhile jsWS
      if r3.length != r2.length then
        match fourDigitsAt r3 with
        | some v => some v
        | none => fourDigitsAt r1
      else fourDigitsAt r1
    else fourDigitsAt r1
  else none

/-- Matches `\s*(?:years?\s*old|yo|y\/o)` (case-insensitively) at the head
of the string. -/
def ageSuffix (l : Str) : Bool :=
  let r := l.dropWhile jsWS
  (ciHasPre ("year".toList) r &&
    (let r2 := r.drop 4
     (ciHasPre ("s".toList) r2 && ciHasPre ("old".toList) ((r2.drop 1).dropWhile jsWS)) ||
       ciHasPre ("old".toList) (r2.dropWhile jsWS))) ||
  ciHasPre ("yo".toList) r || ciHasPre ("y/o".toList) r

/-- Matches the regex `/(\d{1,2})\s*(?:years?\s*old|yo|y\/o)/i` anchored at
the head of the string (greedy: two digits preferred over one), returning
the captured age. -/
def ageAt (l : Str) : Option Nat :=
  match l with
  | [] => none
  | c1 :: rest =>
    if c1.isDigit then
      match rest with
      | c2 :: rest2 =>
        if c2.isDigit && ageSuffix rest2 then
          some ((c1.toNat - 48) * 10 + (c2.toNat - 48))
        else if ageSuffix rest then some (c1.toNat - 48)
        else none
      | [] => none
    else none

/-- Leftmost-match regex search: try the anchored matcher at every suffix,
left to right. -/
def scanFor (f : Str → Option Nat) : Str → Option Nat
  | [] => f []
  | c :: t =>
    match f (c :: t) with
    | some v => some v
    | none => scanFor f t

/-- Model of `extractYearFromBio`: the `born (in) YYYY` pattern first, then
the age pattern with the `10 < age < 100` guard turning an age into
`currentYear - age`. -/
def extractYearFromBio (currentYear : Int) (bio : Str) : Option Int :=
  match scanFor bornAt bio with
  | some y => some (y : Int)
  | none =>
    match scanFor ageAt bio with
    | some age =>
      if decide (10 < age) && decide (age < 100) then some (currentYear - (age : Int))
      else none
    | none => none

/-! ## Field matchers -/

/-- Model of `matchName`. -/
def matchName (personName profileName : Option Str) : ℚ :=
  match personName, profileName with
  | some n1r, some n2r =>
    let name1 := jsTrim n1r
    let name2 := jsTrim n2r
    if name1.isEmpty || name2.isEmpty then 0
    else
      let p1 := words (lowerStr name1)
      let p2 := words (lowerStr name2)
      if p1.isEmpty || p2.isEmpty then 0
      else if List.intercalate ([' ']) p1 == List.intercalate ([' ']) p2 then 1
      else if decide (0 < p1.length) && decide (0 < p2.length) &&
          areNicknameVariants (p1.headD []) (p2.headD []) then
        (if decide (1 < p1.length) && decide (1 < p2.length) then
          (if similarity (p1.getLastD []) (p2.getLastD []) > 0.8 then (0.95 : ℚ) else 0.7)
        else 0.7)
      else if (p2.headD []).length == 1 && isPrefixL (p2.headD []) (p1.headD []) then
        (if decide (1 < p1.length) && decide (1 < p2.length) then
          0.5 + similarity (p1.getLastD []) (p2.getLastD []) * 0.3
        else 0.4)
      else similarity name1 name2
  | _, _ => 0

/-- Model of `matchLocation`. -/
def matchLocation (personLoc profileLoc : Option Str) : ℚ :=
  match personLoc, profileLoc with
  | some l1, some l2 =>
    if l1.isEmpty || l2.isEmpty then 0
    else
      let n1 := normalizeLocation l1
      let n2 := normalizeLocation l2
      if n1 == n2 then 1
      else if matchLocationAlias l1 l2 then 0.9
      else if jsIncludes n1 n2 || jsIncludes n2 n1 then 0.85
      else similarity n1 n2
  | _, _ => 0

/-- Model of `matchEmployerInBio`. -/
def matchEmployerInBio (employer bio : Option Str) : ℚ :=
  match employer, bio with
  | some emp, some b0 =>
    if emp.isEmpty || b0.isEmpty then 0
    else
      let e := lowerStr emp
      let b := lowerStr b0
      if jsIncludes b e then 1
      else
        let ws := (words e).filter (fun w => decide (2 < w.length))
        let matched := ws.filter (fun w => jsIncludes b w)
        if decide (0 < matched.length) then
          0.5 * ((matched.length : ℚ) / (ws.length : ℚ))
        else 0
  | _, _ => 0

/-- Model of `matchJobTitleInBio`. -/
def matchJobTitleInBio (jobTitle bio : Option Str) : ℚ :=
  match jobTitle, bio with
  | some jt, some b0 =>
    if jt.isEmpty || b0.isEmpty then 0
    else
      let t := lowerStr jt
      let b := lowerStr b0
      if jsIncludes b t then 1
      else
        let ws := (words t).filter (fun w => decide (3 < w.length))
        let matched := ws.filter (fun w => jsIncludes b w)
        if decide (0 < matched.length) then
          0.6 * ((matched.length : ℚ) / (ws.length : ℚ))
        else if similarity t b > 0.5 then similarity t b * 0.5
        else 0
  | _, _ => 0

/-- A value that is either a single string or a list of strings
(`string | string[]` in the source). -/
inductive StrOrList where
  | one (s : Str)
  | many (l : List Str)
deriving DecidableEq

/-- The list form the source builds with
`Array.isArray(x) ? x : [x]`. -/
def StrOrList.toL : StrOrList → List Str
  | .one s => [s]
  | .many l => l

/-- JavaScript falsiness of a `string | string[]` value: only the empty
string is falsy (an empty array is truthy). -/
def StrOrList.falsy : StrOrList → Bool
  | .one s => s.isEmpty
  | .many _ => false

/-- Strips dots, underscores and hyphens, then digits
(`replace(/[._-]/g, '').replace(/\d+/g, '')`). -/
def stripNorm (s : Str) : Str :=
  (s.filter (fun c => !(c == '.' || c == '_' || c == '-'))).filter (fun c => !c.isDigit)

/-- Local part of an email (before the first `@`, or the whole string),
case-folded. -/
def emailLocal (email : Str) : Str :=
  lowerStr (email.takeWhile (fun c => !(c == '@')))

/-- Score of a single email in `matchEmailToUsername`'s loop body: the
three tiers, 0 when none applies. -/
def emailTier (uLower uNorm email : Str) : ℚ :=
  let eUser := emailLocal email
  let eNorm := stripNorm eUser
  if eUser == uLower then 1
  else if eNorm == uNorm then 0.9
  else if jsIncludes uNorm eNorm || jsIncludes eNorm uNorm then 0.7
  else 0

/-- The `for (const email of list)` loop of `matchEmailToUsername`: first
email hitting any tier returns its score. -/
def emailLoop (uLower uNorm : Str) : List Str → ℚ
  | [] => 0
  | e :: es =>
    if emailTier uLower uNorm e == 0 then emailLoop uLower uNorm es
    else emailTier uLower uNorm e

/-- Model of `matchEmailToUsername`. -/
def matchEmailToUsername (emails : Option StrOrList) (username : Option Str) : ℚ :=
  match emails, username with
  | some es, some u =>
    if es.falsy || u.isEmpty then 0
    else emailLoop (lowerStr u) (stripNorm (lowerStr u)) es.toL
  | _, _ => 0

/-- The `for (const phone of list)` loop of `matchPhoneInBio`. -/
def phoneLoop (bioDigits : Str) : List Str → ℚ
  | [] => 0
  | p :: ps =>
    let normalized := normalizePhone p
    if decide (7 ≤ normalized.length) && jsIncludes bioDigits normalized then 1
    else if decide (7 ≤ normalized.length) &&
        jsIncludes bioDigits (normalized.drop (normalized.length - 7)) then 0.8
    else phoneLoop bioDigits ps

/-- Model of `matchPhoneInBio`. -/
def matchPhoneInBio (phones : Option StrOrList) (bio : Option Str) : ℚ :=
  match phones, bio with
  | some ps, some b =>
    if ps.falsy || b.isEmpty then 0
    else phoneLoop (b.filter Char.isDigit) ps.toL
  | _, _ => 0

/-- Model of `matchDateOfBirth` (with the wall-clock year explicit). -/
def matchDateOfBirth (currentYear : Int) (dob bio : Option Str) : ℚ :=
  match dob, bio with
  | some d, some b =>
    if d.isEmpty || b.isEmpty then 0
    else
      match parseYear d with
      | none => 0
      | some personYear =>
        match extractYearFromBio currentYear b with
        | some bioYear =>
          if bioYear == 0 then 0
          else if bioYear == personYear then 1
          else if (bioYear - personYear).natAbs ≤ 1 then 0.7
          else 0
        | none => 0
  | _, _ => 0

/-! ## Data model and weighted aggregation -/

/-- The `Person` input shape (all fields optional). -/
structure Person where
  name : Option Str := none
  email : Option StrOrList := none
  phone : Option StrOrList := none
  location : Option Str := none
  dateOfBirth : Option Str := none
  employer : Option Str := none
  jobTitle : Option Str := none
deriving DecidableEq

/-- The `Profile` input shape (platform and username required, both spellings
of the aliased fields). -/
structure Profile where
  platform : Str
  username : Str
  displayName : Option Str := none
  display_name : Option Str := none
  bio : Option Str := none
  location : Option Str := none
  profileUrl : Option Str := none
  profile_url : Option Str := none
deriving DecidableEq

/-- Model of `profile.displayName || profile.display_name`: the camelCase
spelling wins when truthy (non-empty), otherwise the snake_case one. -/
def displayNameOf (p : Profile) : Option Str :=
  match p.displayName with
  | some s => if s.isEmpty then p.display_name else some s
  | none => p.display_name

/-- JavaScript truthiness of an optional string. -/
def strPresent : Option Str → Bool
  | none => false
  | some s => !s.isEmpty

/-- JavaScript truthiness of an optional `string | string[]`. -/
def solPresent : Option StrOrList → Bool
  | none => false
  | some v => !v.falsy

/-- Result of scoring one profile. -/
structure MatchResult where
  profile : Profile
  score : ℚ
  factors : List (String × ℚ)
deriving DecidableEq

/-- JavaScript `Math.round(x * 100) / 100` on a rational (`Math.round`
rounds half towards positive infinity). -/
def round2 (q : ℚ) : ℚ := ((⌊q * 100 + 1 / 2⌋ : ℤ) : ℚ) / 100

/-- The seven guarded factor contributions of `calculateMatchScore`, in
source order: presence of both operands, factor key, matcher score, weight
(`WEIGHTS` of `matching.ts`). -/
def factorTerms (currentYear : Int) (person : Person) (profile : Profile) :
    List (Bool × String × ℚ × ℚ) :=
  let dn := displayNameOf profile
  [ (strPresent person.name && strPresent dn, "name_match",
      matchName person.name dn, 0.30),
    (strPresent person.location && strPresent profile.location, "location_match",
      matchLocation person.location profile.location, 0.12),
    (strPresent person.employer && strPresent profile.bio, "employer_in_bio",
      matchEmployerInBio person.employer profile.bio, 0.18),
    (strPresent person.jobTitle && strPresent profile.bio, "job_title_in_bio",
      matchJobTitleInBio person.jobTitle profile.bio, 0.10),
    (solPresent person.email && !profile.username.isEmpty, "email_username_match",
      matchEmailToUsername person.email (some profile.username), 0.18),
    (solPresent person.phone && strPresent profile.bio, "phone_in_bio",
      matchPhoneInBio person.phone profile.bio, 0.07),
    (strPresent person.dateOfBirth && strPresent profile.bio, "dob_match",
      matchDateOfBirth currentYear person.dateOfBirth profile.bio, 0.05) ]

/-- One `if (...) { score += s * w; weight += w; factors[...] = s; }` block
of `calculateMatchScore`, as a fold step over `(score, weight, factors)`. -/
def scoreStep (acc : ℚ × ℚ × List (String × ℚ)) (t : Bool × String × ℚ × ℚ) :
    ℚ × ℚ × List (String × ℚ) :=
  if t.1 then (acc.1 + t.2.2.1 * t.2.2.2, acc.2.1 + t.2.2.2, acc.2.2 ++ [(t.2.1, t.2.2.1)])
  else acc

/-- Model of `calculateMatchScore`: run the seven guarded blocks in order,
then `weight > 0 ? round2(score / weight) : 0`. -/
def calculateMatchScore (currentYear : Int) (person : Person) (profile : Profile) :
    MatchResult :=
  let acc := (factorTerms currentYear person profile).foldl scoreStep (0, 0, [])
  let finalScore := if 0 < acc.2.1 then round2 (acc.1 / acc.2.1) else 0
  { profile := profile, score := finalScore, factors := acc.2.2 }

/-- Stable insertion of a result into a list sorted by descending score: the
new element goes before the first strictly-smaller-or-equal... precisely, it
goes before the first element whose score is at most its own, so earlier
input elements stay ahead of later equal-scored ones. -/
def insertByScore (x : MatchResult) : List MatchResult → List MatchResult
  | [] => [x]
  | y :: ys => if y.score ≤ x.score then x :: y :: ys else y :: insertByScore x ys

/-- Stable sort by descending score, modelling
`Array.prototype.sort((a, b) => b.score - a.score)` (ECMAScript sort is
stable, and a stable sort's output is uniquely determined by the
comparator). -/
def sortByScoreDesc : List MatchResult → List MatchResult
  | [] => []
  | x :: xs => insertByScore x (sortByScoreDesc xs)

/-- Model of `matchProfiles`: score every profile, sort descending. -/
def matchProfiles (currentYear : Int) (person : Person) (profiles : List Profile) :
    List MatchResult :=
  sortByScoreDesc (profiles.map (calculateMatchScore currentYear person))

/-! ## Specification-side definitions

These render the specification's wording for the aggregate, for comparison
with `calculateMatchScore`. -/

/-- Specification reading of the aggregator: over exactly the applicable
terms, the weight-renormalized average, rounded; 0 when none applies. -/
def specOverall (ts : List (Bool × String × ℚ × ℚ)) : ℚ :=
  let app := ts.filter (fun t => t.1)
  if app.isEmpty then 0
  else round2 (((app.map (fun t => t.2.2.1 * t.2.2.2)).sum) / ((app.map (fun t => t.2.2.2)).sum))

/-- Specification reading of "first qualifying match wins": the first
nonzero score in the list, 0 when there is none. -/
def firstQualifying (scores : List ℚ) : ℚ :=
  (scores.filter (fun q => !(q == 0))).headD 0

/-- An edit script transforming the first list into the second at the given
total cost: delete and insert cost 1, keeping a character costs 0,
substituting costs 1.  Classic Levenshtein distance is the least cost of
such a script; this is used to relate the distance of the reversed lists to
the distance of the originals. -/
inductive EditSeq : List Char → List Char → Nat → Prop where
  | nil : EditSeq [] [] 0
  | del {xs ys n} (x : Char) : EditSeq xs ys n → EditSeq (x :: xs) ys (n + 1)
  | ins {xs ys n} (y : Char) : EditSeq xs ys n → EditSeq xs (y :: ys) (n + 1)
  | keep {xs ys n} (x : Char) : EditSeq xs ys n → EditSeq (x :: xs) (x :: ys) n
  | subst {xs ys n} (x y : Char) : EditSeq xs ys n → EditSeq (x :: xs) (y :: ys) (n + 1)

/-! # Theorems

First the dynamic-programming correctness of `levenshtein`, then the edit
script theory giving reversal invariance, then per-component lemmas and the
claim theorems. -/

theorem levClassic_nil (ys : List Char) : levClassic [] ys = ys.length := by
  rw [levClassic]

theorem levClassic_nil_right (xs : List Char) : levClassic xs [] = xs.length := by
  cases xs
  · rw [levClassic]
  · rw [levClassic]
    simp

theorem levClassic_cons_cons (x : Char) (xs : List Char) (y : Char) (ys : List Char) :
    levClassic (x :: xs) (y :: ys) =
      if x = y then levClassic xs ys
      else min (levClassic xs ys + 1)
        (min (levClassic xs (y :: ys) + 1) (levClassic (x :: xs) ys + 1)) := by
  rw [levClassic]

theorem rowFrom_head (w u : List Char) (as_ : List Char) :
    rowFrom w u as_ = levClassic u w :: (rowFrom w u as_).tail := by
  cases as_ <;> rfl

theorem levCells_rowFrom (y : Char) (as_ : List Char) : ∀ u w : List Char,
    levCells y as_ (levClassic u (y :: w)) (rowFrom w u as_) =
      (rowFrom (y :: w) u as_).tail := by
  induction as_ with
  | nil => intro u w; rfl
  | cons c as ih =>
    intro u w
    have hrow : rowFrom w u (c :: as) =
        levClassic u w :: levClassic (c :: u) w :: (rowFrom w (c :: u) as).tail := by
      rw [rowFrom, ← rowFrom_head]
    rw [hrow]
    have hcell : (if c = y then levClassic u w
        else min (levClassic u w + 1)
          (min (levClassic u (y :: w) + 1) (levClassic (c :: u) w + 1))) =
        levClassic (c :: u) (y :: w) := by
      rw [levClassic_cons_cons]
    show (if c = y then levClassic u w
        else min (levClassic u w + 1)
          (min (levClassic u (y :: w) + 1) (levClassic (c :: u) w + 1))) ::
        levCells y as _ _ = _
    rw [hcell]
    have htail : levClassic (c :: u) w :: (rowFrom w (c :: u) as).tail =
        rowFrom w (c :: u) as := (rowFrom_head w (c :: u) as).symm
    rw [htail, ih (c :: u) w]
    rw [rowFrom, rowFrom_head (y :: w) (c :: u) as]
    simp only [List.tail_cons]

theorem levStep_rowFrom (a : List Char) (w : List Char) (y : Char) :
    levStep a (rowFrom w [] a) y = rowFrom (y :: w) [] a := by
  rw [rowFrom_head w [] a]
  show (levClassic [] w + 1) :: levCells y a (levClassic [] w + 1)
      (levClassic [] w :: (rowFrom w [] a).tail) = _
  have h1 : levClassic [] w + 1 = levClassic [] (y :: w) := by
    rw [levClassic_nil, levClassic_nil]; rfl
  rw [h1, ← rowFrom_head w [] a, levCells_rowFrom y a [] w]
  rw [rowFrom_head (y :: w) [] a]
  simp only [List.tail_cons]

theorem foldl_levStep (a : List Char) : ∀ (bs : List Char) (w : List Char),
    List.foldl (levStep a) (rowFrom w [] a) bs = rowFrom (bs.reverse ++ w) [] a := by
  intro bs
  induction bs with
  | nil => intro w; simp
  | cons y bs ih =>
    intro w
    show List.foldl (levStep a) (levStep a (rowFrom w [] a) y) bs = _
    rw [levStep_rowFrom, ih (y :: w)]
    simp

theorem rowFrom_init (a : List Char) : ∀ u : List Char,
    rowFrom [] u a = List.range' u.length (a.length + 1) := by
  induction a with
  | nil =>
    intro u
    show [levClassic u []] = _
    rw [levClassic_nil_right]; rfl
  | cons c as ih =>
    intro u
    show levClassic u [] :: rowFrom [] (c :: u) as = _
    rw [levClassic_nil_right, ih (c :: u)]
    rfl

theorem rowFrom_getLastD (w : List Char) (as_ : List Char) : ∀ (u : List Char) (d : Nat),
    (rowFrom w u as_).getLastD d = levClassic (as_.reverse ++ u) w := by
  induction as_ with
  | nil => intro u d; rfl
  | cons c as ih =>
    intro u d
    show (levClassic u w :: rowFrom w (c :: u) as).getLastD d = _
    rw [List.getLastD_cons, ih (c :: u) (levClassic u w)]
    simp

/-- The source's dynamic program computes the classic distance of the
reversed inputs (the rows are indexed by reversed prefixes). -/
theorem levenshtein_eq_rev (a b : List Char) :
    levenshtein a b = levClassic a.reverse b.reverse := by
  show (b.foldl (levStep a) (List.range (a.length + 1))).getLastD 0 = _
  have h0 : List.range (a.length + 1) = rowFrom [] [] a := by
    rw [rowFrom_init a [], List.range_eq_range']
    rfl
  rw [h0, foldl_levStep a b [], List.append_nil, rowFrom_getLastD]
  simp

/-- Adding or removing one character on either side changes the classic
distance by at most one (all four one-step Lipschitz bounds, proved
simultaneously by strong induction on the total length). -/
theorem levClassic_step_bounds : ∀ (n : Nat) (xs ys : List Char), xs.length + ys.length ≤ n →
    (∀ x, levClassic (x :: xs) ys ≤ levClassic xs ys + 1) ∧
    (∀ y, levClassic xs (y :: ys) ≤ levClassic xs ys + 1) ∧
    (∀ x, levClassic xs ys ≤ levClassic (x :: xs) ys + 1) ∧
    (∀ y, levClassic xs ys ≤ levClassic xs (y :: ys) + 1) := by
  intro n
  induction n with
  | zero =>
    intro xs ys h
    have hx : xs = [] := by
      cases xs with
      | nil => rfl
      | cons a t => simp at h
    have hy : ys = [] := by
      cases ys with
      | nil => rfl
      | cons a t => simp at h
    subst hx; subst hy
    refine ⟨fun x => ?_, fun y => ?_, fun x => ?_, fun y => ?_⟩ <;>
      simp [levClassic_nil, levClassic_nil_right]
  | succ n ih =>
    intro xs ys h
    refine ⟨fun x => ?_, fun y => ?_, fun x => ?_, fun y => ?_⟩
    · -- levClassic (x :: xs) ys ≤ levClassic xs ys + 1
      cases ys with
      | nil =>
        rw [levClassic_nil_right, levClassic_nil_right]
        simp only [List.length_cons]
        omega
      | cons y ys =>
        rw [levClassic_cons_cons]
        by_cases hxy : x = y
        · rw [if_pos hxy]
          have h4 := (ih xs ys (by simp at h ⊢; omega)).2.2.2 y
          omega
        · rw [if_neg hxy]
          omega
    · -- levClassic xs (y :: ys) ≤ levClassic xs ys + 1
      cases xs with
      | nil =>
        rw [levClassic_nil, levClassic_nil]
        simp only [List.length_cons]
        omega
      | cons x xs =>
        rw [levClassic_cons_cons]
        by_cases hxy : x = y
        · rw [if_pos hxy]
          have h3 := (ih xs ys (by simp at h ⊢; omega)).2.2.1 x
          omega
        · rw [if_neg hxy]
          omega
    · -- levClassic xs ys ≤ levClassic (x :: xs) ys + 1
      cases ys with
      | nil =>
        rw [levClassic_nil_right, levClassic_nil_right]
        simp only [List.length_cons]
        omega
      | cons y ys =>
        rw [levClassic_cons_cons]
        by_cases hxy : x = y
        · rw [if_pos hxy]
          have h2 := (ih xs ys (by simp at h ⊢; omega)).2.1 y
          omega
        · rw [if_neg hxy]
          have h2 := (ih xs ys (by simp at h ⊢; omega)).2.1 y
          have h3 := (ih xs ys (by simp at h ⊢; omega)).2.2.1 x
          omega
    · -- levClassic xs ys ≤ levClassic xs (y :: ys) + 1
      cases xs with
      | nil =>
        rw [levClassic_nil, levClassic_nil]
        simp only [List.length_cons]
        omega
      | cons x xs =>
        rw [levClassic_cons_cons]
        by_cases hxy : x = y
        · rw [if_pos hxy]
          have h1 := (ih xs ys (by simp at h ⊢; omega)).1 x
          omega
        · rw [if_neg hxy]
          have h1 := (ih xs ys (by simp at h ⊢; omega)).1 x
          have h4 := (ih xs ys (by simp at h ⊢; omega)).2.2.2 y
          omega

/-- The distance is a lower bound for the cost of every edit script. -/
theorem EditSeq.toLev {xs ys : List Char} {n : Nat} (h : EditSeq xs ys n) :
    levClassic xs ys ≤ n := by
  induction h with
  | nil =>
    rw [levClassic_nil]
    simp
  | @del xs ys n x h ih =>
    have hb := (levClassic_step_bounds (xs.length + ys.length) xs ys le_rfl).1 x
    omega
  | @ins xs ys n y h ih =>
    have hb := (levClassic_step_bounds (xs.length + ys.length) xs ys le_rfl).2.1 y
    omega
  | keep x h ih =>
    rw [levClassic_cons_cons, if_pos rfl]
    exact ih
  | subst x y h ih =>
    rw [levClassic_cons_cons]
    by_cases hxy : x = y
    · rw [if_pos hxy]; omega
    · rw [if_neg hxy]; omega

/-- Some edit script attains the classic distance. -/
theorem levClassic_editSeq : ∀ (n : Nat) (xs ys : List Char), xs.length + ys.length ≤ n →
    EditSeq xs ys (levClassic xs ys) := by
  intro n
  induction n with
  | zero =>
    intro xs ys h
    have hx : xs = [] := by
      cases xs with
      | nil => rfl
      | cons a t => simp at h
    have hy : ys = [] := by
      cases ys with
      | nil => rfl
      | cons a t => simp at h
    subst hx; subst hy
    rw [levClassic_nil]
    exact .nil
  | succ n ih =>
    intro xs ys h
    match xs, ys with
    | [], [] =>
      rw [levClassic_nil]
      exact .nil
    | [], y :: ys =>
      rw [levClassic_nil]
      have h0 : EditSeq [] ys (levClassic [] ys) := ih [] ys (by simp at h ⊢; omega)
      rw [levClassic_nil] at h0
      exact .ins y h0
    | x :: xs, [] =>
      rw [levClassic_nil_right]
      have h0 : EditSeq xs [] (levClassic xs []) := ih xs [] (by simp at h ⊢; omega)
      rw [levClassic_nil_right] at h0
      exact .del x h0
    | x :: xs, y :: ys =>
      rw [levClassic_cons_cons]
      by_cases hxy : x = y
      · rw [if_pos hxy]
        subst hxy
        exact .keep x (ih xs ys (by simp at h ⊢; omega))
      · rw [if_neg hxy]
        have hd := ih xs ys (by simp at h ⊢; omega)
        have ha := ih xs (y :: ys) (by simp at h ⊢; omega)
        have hb := ih (x :: xs) ys (by simp at h ⊢; omega)
        have hcase : min (levClassic xs ys + 1)
            (min (levClassic xs (y :: ys) + 1) (levClassic (x :: xs) ys + 1)) =
              levClassic xs ys + 1 ∨
            min (levClassic xs ys + 1)
            (min (levClassic xs (y :: ys) + 1) (levClassic (x :: xs) ys + 1)) =
              levClassic xs (y :: ys) + 1 ∨
            min (levClassic xs ys + 1)
            (min (levClassic xs (y :: ys) + 1) (levClassic (x :: xs) ys + 1)) =
              levClassic (x :: xs) ys + 1 := by omega
        rcases hcase with hc | hc | hc
        · rw [hc]; exact .subst x y hd
        · rw [hc]; exact .del x ha
        · rw [hc]; exact .ins y hb

/-- Appending a deletion at the far end of a script. -/
theorem EditSeq.snocDel {xs ys : List Char} {n : Nat} (x : Char) (h : EditSeq xs ys n) :
    EditSeq (xs ++ [x]) ys (n + 1) := by
  induction h with
  | nil => exact .del x .nil
  | del z h ih => exact .del z ih
  | ins z h ih => exact .ins z ih
  | keep z h ih => exact .keep z ih
  | subst z w h ih => exact .subst z w ih

/-- Appending an insertion at the far end of a script. -/
theorem EditSeq.snocIns {xs ys : List Char} {n : Nat} (y : Char) (h : EditSeq xs ys n) :
    EditSeq xs (ys ++ [y]) (n + 1) := by
  induction h with
  | nil => exact .ins y .nil
  | del z h ih => exact .del z ih
  | ins z h ih => exact .ins z ih
  | keep z h ih => exact .keep z ih
  | subst z w h ih => exact .subst z w ih

/-- Appending a kept character at the far end of a script. -/
theorem EditSeq.snocKeep {xs ys : List Char} {n : Nat} (x : Char) (h : EditSeq xs ys n) :
    EditSeq (xs ++ [x]) (ys ++ [x]) n := by
  induction h with
  | nil => exact .keep x .nil
  | del z h ih => exact .del z ih
  | ins z h ih => exact .ins z ih
  | keep z h ih => exact .keep z ih
  | subst z w h ih => exact .subst z w ih

/-- Appending a substitution at the far end of a script. -/
theorem EditSeq.snocSubst {xs ys : List Char} {n : Nat} (x y : Char) (h : EditSeq xs ys n) :
    EditSeq (xs ++ [x]) (ys ++ [y]) (n + 1) := by
  induction h with
  | nil => exact .subst x y .nil
  | del z h ih => exact .del z ih
  | ins z h ih => exact .ins z ih
  | keep z h ih => exact .keep z ih
  | subst z w h ih => exact .subst z w ih

/-- Edit scripts reverse. -/
theorem EditSeq.rev {xs ys : List Char} {n : Nat} (h : EditSeq xs ys n) :
    EditSeq xs.reverse ys.reverse n := by
  induction h with
  | nil => exact .nil
  | del x h ih => simpa using ih.snocDel x
  | ins y h ih => simpa using ih.snocIns y
  | keep x h ih => simpa using ih.snocKeep x
  | subst x y h ih => simpa using ih.snocSubst x y

/-- Classic Levenshtein distance is invariant under reversing both inputs. -/
theorem levClassic_reverse (xs ys : List Char) :
    levClassic xs.reverse ys.reverse = levClassic xs ys := by
  apply le_antisymm
  · exact (levClassic_editSeq _ xs ys le_rfl).rev.toLev
  · have h := (levClassic_editSeq _ xs.reverse ys.reverse le_rfl).rev.toLev
    simpa using h

/-- The source's dynamic-programming `levenshtein` computes the classic
unit-cost edit distance. -/
theorem levenshtein_eq_levClassic (a b : List Char) :
    levenshtein a b = levClassic a b := by
  rw [levenshtein_eq_rev, levClassic_reverse]

theorem levClassic_self : ∀ xs : List Char, levClassic xs xs = 0 := by
  intro xs
  induction xs with
  | nil => rw [levClassic_nil]; rfl
  | cons x t ih => rw [levClassic_cons_cons, if_pos rfl]; exact ih

theorem levClassic_le_max : ∀ (n : Nat) (xs ys : List Char), xs.length + ys.length ≤ n →
    levClassic xs ys ≤ max xs.length ys.length := by
  intro n
  induction n with
  | zero =>
    intro xs ys h
    match xs, ys with
    | [], [] => rw [levClassic_nil]; simp
    | [], _ :: _ => simp at h
    | _ :: _, _ => simp at h
  | succ n ih =>
    intro xs ys h
    match xs, ys with
    | [], ys => rw [levClassic_nil]; simp
    | x :: xs, [] => rw [levClassic_nil_right]; simp
    | x :: xs, y :: ys =>
      rw [levClassic_cons_cons]
      have hd := ih xs ys (by simp only [List.length_cons] at h; omega)
      by_cases hxy : x = y
      · rw [if_pos hxy]
        simp only [List.length_cons]
        omega
      · rw [if_neg hxy]
        simp only [List.length_cons]
        omega

theorem lowerStr_length (s : Str) : (lowerStr s).length = s.length :=
  List.length_map s Char.toLower

/-- The source's `similarity` agrees with the specification formula:
0 on an empty trim, otherwise one minus classic edit distance of the
case-folded trimmed code-point sequences over the longer trimmed length. -/
theorem similarity_spec_eq (a b : Str) :
    similarity a b =
      if jsTrim a = [] ∨ jsTrim b = [] then 0
      else 1 - (levClassic (lowerStr (jsTrim a)) (lowerStr (jsTrim b)) : ℚ) /
            ((max (jsTrim a).length (jsTrim b).length : ℕ) : ℚ) := by
  unfold similarity
  simp only [levenshtein_eq_levClassic]
  by_cases h1 : jsTrim a = []
  · simp [h1]
  · by_cases h2 : jsTrim b = []
    · simp [h2]
    · have hmax : ¬(max (jsTrim a).length (jsTrim b).length = 0) := by
        have := List.length_pos.mpr h1
        omega
      simp [h1, h2, hmax]

theorem similarity_nonneg (a b : Str) : 0 ≤ similarity a b := by
  rw [similarity_spec_eq]
  by_cases h : jsTrim a = [] ∨ jsTrim b = []
  · rw [if_pos h]
  · rw [if_neg h]
    push_neg at h
    have hlen : 0 < (jsTrim a).length := List.length_pos.mpr h.1
    have hm : (0 : ℚ) < ((max (jsTrim a).length (jsTrim b).length : ℕ) : ℚ) := by
      have : 0 < max (jsTrim a).length (jsTrim b).length := by omega
      exact_mod_cast this
    have hle : levClassic (lowerStr (jsTrim a)) (lowerStr (jsTrim b)) ≤
        max (jsTrim a).length (jsTrim b).length := by
      have := levClassic_le_max ((lowerStr (jsTrim a)).length + (lowerStr (jsTrim b)).length)
        (lowerStr (jsTrim a)) (lowerStr (jsTrim b)) le_rfl
      rwa [lowerStr_length, lowerStr_length] at this
    have hql : (levClassic (lowerStr (jsTrim a)) (lowerStr (jsTrim b)) : ℚ) ≤
        ((max (jsTrim a).length (jsTrim b).length : ℕ) : ℚ) := by exact_mod_cast hle
    have := (div_le_one hm).mpr hql
    linarith

theorem similarity_le_one (a b : Str) : similarity a b ≤ 1 := by
  rw [similarity_spec_eq]
  by_cases h : jsTrim a = [] ∨ jsTrim b = []
  · rw [if_pos h]; norm_num
  · rw [if_neg h]
    push_neg at h
    have hlen : 0 < (jsTrim a).length := List.length_pos.mpr h.1
    have hm : (0 : ℚ) < ((max (jsTrim a).length (jsTrim b).length : ℕ) : ℚ) := by
      have : 0 < max (jsTrim a).length (jsTrim b).length := by omega
      exact_mod_cast this
    have hd : (0 : ℚ) ≤ (levClassic (lowerStr (jsTrim a)) (lowerStr (jsTrim b)) : ℚ) := by
      positivity
    have := div_nonneg hd hm.le
    linarith

theorem similarity_self {s : Str} (h : jsTrim s ≠ []) : similarity s s = 1 := by
  rw [similarity_spec_eq]
  rw [if_neg (by simp [h])]
  rw [levClassic_self]
  simp

/-- Claim C5: `similarity` trims, returns 0 on an empty trim, and otherwise
computes `1 - levenshtein(lower a, lower b) / max(len a, len b)` where
`levenshtein` is the classic unit-cost insert/delete/substitute edit
distance over the code points of the case-folded trimmed strings; in
particular `similarity s s = 1` whenever `s` has a non-empty trim. -/
theorem similarity_matches_spec :
    (∀ a b : Str, similarity a b =
      if jsTrim a = [] ∨ jsTrim b = [] then 0
      else 1 - (levClassic (lowerStr (jsTrim a)) (lowerStr (jsTrim b)) : ℚ) /
            ((max (jsTrim a).length (jsTrim b).length : ℕ) : ℚ)) ∧
    (∀ s : Str, jsTrim s ≠ [] → similarity s s = 1) :=
  ⟨similarity_spec_eq, fun _ h => similarity_self h⟩

/-- Witness for `similarity_matches_spec` at a concrete input. -/
theorem similarity_matches_spec_witness :
    jsTrim ("ab".toList) ≠ [] ∧ similarity ("ab".toList) ("ab".toList) = 1 :=
  ⟨by decide, similarity_matches_spec.2 ("ab".toList) (by decide)⟩

/-! ## Ranges of the field matchers -/

theorem simScaled_nonneg (x y : Str) : (0 : ℚ) ≤ 0.5 + similarity x y * 0.3 := by
  have h1 := similarity_nonneg x y
  linarith

theorem simScaled_le_one (x y : Str) : (0.5 : ℚ) + similarity x y * 0.3 ≤ 1 := by
  have h2 := similarity_le_one x y
  linarith

theorem simHalf_nonneg (x y : Str) : (0 : ℚ) ≤ similarity x y * 0.5 := by
  have h1 := similarity_nonneg x y
  linarith

theorem simHalf_le_one (x y : Str) : similarity x y * 0.5 ≤ 1 := by
  have h2 := similarity_le_one x y
  linarith

theorem ratio_nonneg (c : ℚ) (hc : 0 ≤ c) (m t : ℕ) : 0 ≤ c * ((m : ℚ) / (t : ℚ)) := by
  positivity

theorem ratio_le_one (c : ℚ) (hc0 : 0 ≤ c) (hc : c ≤ 1) (m t : ℕ) (hmt : m ≤ t) :
    c * ((m : ℚ) / (t : ℚ)) ≤ 1 := by
  rcases Nat.eq_zero_or_pos t with ht | ht
  · subst ht
    simp
  · have htq : (0 : ℚ) < (t : ℚ) := by exact_mod_cast ht
    have hq : ((m : ℚ) / (t : ℚ)) ≤ 1 := by
      rw [div_le_one htq]
      exact_mod_cast hmt
    have hq0 : (0 : ℚ) ≤ ((m : ℚ) / (t : ℚ)) := by positivity
    nlinarith

/-- Unfolding equation for `matchName` on present inputs. -/
theorem matchName_eq (s t : Str) : matchName (some s) (some t) =
    (if (jsTrim s).isEmpty || (jsTrim t).isEmpty then 0
     else if (words (lowerStr (jsTrim s))).isEmpty ||
         (words (lowerStr (jsTrim t))).isEmpty then 0
     else if List.intercalate ([' ']) (words (lowerStr (jsTrim s))) ==
         List.intercalate ([' ']) (words (lowerStr (jsTrim t))) then 1
     else if decide (0 < (words (lowerStr (jsTrim s))).length) &&
         decide (0 < (words (lowerStr (jsTrim t))).length) &&
         areNicknameVariants ((words (lowerStr (jsTrim s))).headD [])
           ((words (lowerStr (jsTrim t))).headD []) then
       (if decide (1 < (words (lowerStr (jsTrim s))).length) &&
           decide (1 < (words (lowerStr (jsTrim t))).length) then
         (if similarity ((words (lowerStr (jsTrim s))).getLastD [])
             ((words (lowerStr (jsTrim t))).getLastD []) > 0.8 then (0.95 : ℚ) else 0.7)
       else 0.7)
     else if ((words (lowerStr (jsTrim t))).headD []).length == 1 &&
         isPrefixL ((words (lowerStr (jsTrim t))).headD [])
           ((words (lowerStr (jsTrim s))).headD []) then
       (if decide (1 < (words (lowerStr (jsTrim s))).length) &&
           decide (1 < (words (lowerStr (jsTrim t))).length) then
         0.5 + similarity ((words (lowerStr (jsTrim s))).getLastD [])
           ((words (lowerStr (jsTrim t))).getLastD []) * 0.3
       else 0.4)
     else similarity (jsTrim s) (jsTrim t)) := rfl

/-- Every value of `matchName` is a listed constant, an initial-match value,
or a similarity. -/
theorem matchName_cases (a b : Option Str) :
    matchName a b = 0 ∨ matchName a b = 1 ∨ matchName a b = 0.95 ∨
      matchName a b = 0.7 ∨ matchName a b = 0.4 ∨
      (∃ x y, matchName a b = 0.5 + similarity x y * 0.3) ∨
      (∃ x y, matchName a b = similarity x y) := by
  cases a with
  | none =>
    left
    cases b with
    | none => rfl
    | some t => rfl
  | some s =>
    cases b with
    | none => left; rfl
    | some t =>
      rw [matchName_eq]
      split_ifs
      · left; rfl
      · left; rfl
      · right; left; rfl
      · right; right; left; rfl
      · right; right; right; left; rfl
      · right; right; right; left; rfl
      · right; right; right; right; right; left
        exact ⟨_, _, rfl⟩
      · right; right; right; right; left; rfl
      · right; right; right; right; right; right
        exact ⟨_, _, rfl⟩

theorem matchName_nonneg (a b : Option Str) : 0 ≤ matchName a b := by
  rcases matchName_cases a b with h | h | h | h | h | ⟨x, y, h⟩ | ⟨x, y, h⟩ <;> rw [h]
  · norm_num
  · norm_num
  · norm_num
  · norm_num
  · exact simScaled_nonneg x y
  · exact similarity_nonneg x y

theorem matchName_le_one (a b : Option Str) : matchName a b ≤ 1 := by
  rcases matchName_cases a b with h | h | h | h | h | ⟨x, y, h⟩ | ⟨x, y, h⟩ <;> rw [h]
  · norm_num
  · norm_num
  · norm_num
  · norm_num
  · exact simScaled_le_one x y
  · exact similarity_le_one x y

theorem matchLocation_nonneg (a b : Option Str) : 0 ≤ matchLocation a b := by
  unfold matchLocation
  cases a with
  | none => norm_num
  | some s =>
    cases b with
    | none => norm_num
    | some t =>
      simp only []
      split_ifs <;> first | (norm_num ; done) | exact similarity_nonneg _ _

theorem matchLocation_le_one (a b : Option Str) : matchLocation a b ≤ 1 := by
  unfold matchLocation
  cases a with
  | none => norm_num
  | some s =>
    cases b with
    | none => norm_num
    | some t =>
      simp only []
      split_ifs <;> first | (norm_num ; done) | exact similarity_le_one _ _

theorem matchEmployerInBio_nonneg (a b : Option Str) : 0 ≤ matchEmployerInBio a b := by
  unfold matchEmployerInBio
  cases a with
  | none => norm_num
  | some s =>
    cases b with
    | none => norm_num
    | some t =>
      simp only []
      split_ifs <;> first | (norm_num ; done) | exact ratio_nonneg 0.5 (by norm_num) _ _

theorem matchEmployerInBio_le_one (a b : Option Str) : matchEmployerInBio a b ≤ 1 := by
  unfold matchEmployerInBio
  cases a with
  | none => norm_num
  | some s =>
    cases b with
    | none => norm_num
    | some t =>
      simp only []
      split_ifs <;>
        first
          | (norm_num ; done)
          | exact ratio_le_one 0.5 (by norm_num) (by norm_num) _ _
              (List.length_filter_le _ _)

theorem matchJobTitleInBio_nonneg (a b : Option Str) : 0 ≤ matchJobTitleInBio a b := by
  unfold matchJobTitleInBio
  cases a with
  | none => norm_num
  | some s =>
    cases b with
    | none => norm_num
    | some t =>
      simp only []
      split_ifs <;>
        first
          | (norm_num ; done)
          | exact ratio_nonneg 0.6 (by norm_num) _ _
          | exact simHalf_nonneg _ _

theorem matchJobTitleInBio_le_one (a b : Option Str) : matchJobTitleInBio a b ≤ 1 := by
  unfold matchJobTitleInBio
  cases a with
  | none => norm_num
  | some s =>
    cases b with
    | none => norm_num
    | some t =>
      simp only []
      split_ifs <;>
        first
          | (norm_num ; done)
          | exact ratio_le_one 0.6 (by norm_num) (by norm_num) _ _
              (List.length_filter_le _ _)
          | exact simHalf_le_one _ _

theorem emailTier_cases (a b e : Str) :
    emailTier a b e = 0 ∨ emailTier a b e = 0.7 ∨ emailTier a b e = 0.9 ∨
      emailTier a b e = 1 := by
  unfold emailTier
  simp only []
  split_ifs <;> norm_num

theorem emailLoop_cases (a b : Str) : ∀ es : List Str,
    emailLoop a b es = 0 ∨ emailLoop a b es = 0.7 ∨ emailLoop a b es = 0.9 ∨
      emailLoop a b es = 1 := by
  intro es
  induction es with
  | nil => left; rfl
  | cons e es ih =>
    have hstep : emailLoop a b (e :: es) =
        if emailTier a b e == 0 then emailLoop a b es else emailTier a b e := rfl
    rw [hstep]
    split_ifs with h
    · exact ih
    · exact emailTier_cases a b e

theorem matchEmailToUsername_nonneg (a : Option StrOrList) (b : Option Str) :
    0 ≤ matchEmailToUsername a b := by
  unfold matchEmailToUsername
  cases a with
  | none => norm_num
  | some es =>
    cases b with
    | none => norm_num
    | some u =>
      simp only []
      split_ifs
      · norm_num
      · rcases emailLoop_cases (lowerStr u) (stripNorm (lowerStr u)) es.toL with h | h | h | h <;>
          rw [h] <;> norm_num

theorem matchEmailToUsername_le_one (a : Option StrOrList) (b : Option Str) :
    matchEmailToUsername a b ≤ 1 := by
  unfold matchEmailToUsername
  cases a with
  | none => norm_num
  | some es =>
    cases b with
    | none => norm_num
    | some u =>
      simp only []
      split_ifs
      · norm_num
      · rcases emailLoop_cases (lowerStr u) (stripNorm (lowerStr u)) es.toL with h | h | h | h <;>
          rw [h] <;> norm_num

theorem phoneLoop_cases (bd : Str) : ∀ ps : List Str,
    phoneLoop bd ps = 0 ∨ phoneLoop bd ps = 0.8 ∨ phoneLoop bd ps = 1 := by
  intro ps
  induction ps with
  | nil => left; rfl
  | cons p ps ih =>
    unfold phoneLoop
    simp only []
    split_ifs
    · right; right; rfl
    · right; left; rfl
    · exact ih

theorem matchPhoneInBio_nonneg (a : Option StrOrList) (b : Option Str) :
    0 ≤ matchPhoneInBio a b := by
  unfold matchPhoneInBio
  cases a with
  | none => norm_num
  | some ps =>
    cases b with
    | none => norm_num
    | some u =>
      simp only []
      split_ifs
      · norm_num
      · rcases phoneLoop_cases (u.filter Char.isDigit) ps.toL with h | h | h <;>
          rw [h] <;> norm_num

theorem matchPhoneInBio_le_one (a : Option StrOrList) (b : Option Str) :
    matchPhoneInBio a b ≤ 1 := by
  unfold matchPhoneInBio
  cases a with
  | none => norm_num
  | some ps =>
    cases b with
    | none => norm_num
    | some u =>
      simp only []
      split_ifs
      · norm_num
      · rcases phoneLoop_cases (u.filter Char.isDigit) ps.toL with h | h | h <;>
          rw [h] <;> norm_num

theorem matchDateOfBirth_cases (cy : Int) (a b : Option Str) :
    matchDateOfBirth cy a b = 0 ∨ matchDateOfBirth cy a b = 0.7 ∨
      matchDateOfBirth cy a b = 1 := by
  unfold matchDateOfBirth
  cases a with
  | none => left; rfl
  | some d =>
    cases b with
    | none => left; rfl
    | some bb =>
      simp only []
      split_ifs
      · left; rfl
      · cases parseYear d with
        | none => left; rfl
        | some py =>
          cases extractYearFromBio cy bb with
          | none => left; rfl
          | some byr =>
            simp only []
            split_ifs <;> simp

theorem matchDateOfBirth_nonneg (cy : Int) (a b : Option Str) :
    0 ≤ matchDateOfBirth cy a b := by
  rcases matchDateOfBirth_cases cy a b with h | h | h <;> rw [h] <;> norm_num

theorem matchDateOfBirth_le_one (cy : Int) (a b : Option Str) :
    matchDateOfBirth cy a b ≤ 1 := by
  rcases matchDateOfBirth_cases cy a b with h | h | h <;> rw [h] <;> norm_num

/-! ## Aggregation lemmas -/

theorem foldl_scoreStep_fst (ts : List (Bool × String × ℚ × ℚ)) :
    ∀ acc : ℚ × ℚ × List (String × ℚ),
      (List.foldl scoreStep acc ts).1 =
        acc.1 + ((ts.filter (fun t => t.1)).map (fun t => t.2.2.1 * t.2.2.2)).sum := by
  induction ts with
  | nil => intro acc; simp
  | cons t ts ih =>
    intro acc
    show (List.foldl scoreStep (scoreStep acc t) ts).1 = _
    rw [ih (scoreStep acc t)]
    unfold scoreStep
    by_cases ht : t.1 = true
    · simp [ht]
      ring
    · simp [ht]

theorem foldl_scoreStep_weight (ts : List (Bool × String × ℚ × ℚ)) :
    ∀ acc : ℚ × ℚ × List (String × ℚ),
      (List.foldl scoreStep acc ts).2.1 =
        acc.2.1 + ((ts.filter (fun t => t.1)).map (fun t => t.2.2.2)).sum := by
  induction ts with
  | nil => intro acc; simp
  | cons t ts ih =>
    intro acc
    show (List.foldl scoreStep (scoreStep acc t) ts).2.1 = _
    rw [ih (scoreStep acc t)]
    unfold scoreStep
    by_cases ht : t.1 = true
    · simp [ht]
      ring
    · simp [ht]

theorem foldl_scoreStep_factors (ts : List (Bool × String × ℚ × ℚ)) :
    ∀ acc : ℚ × ℚ × List (String × ℚ),
      (List.foldl scoreStep acc ts).2.2 =
        acc.2.2 ++ (ts.filter (fun t => t.1)).map (fun t => (t.2.1, t.2.2.1)) := by
  induction ts with
  | nil => intro acc; simp
  | cons t ts ih =>
    intro acc
    show (List.foldl scoreStep (scoreStep acc t) ts).2.2 = _
    rw [ih (scoreStep acc t)]
    unfold scoreStep
    by_cases ht : t.1 = true
    · simp [ht]
    · simp [ht]

theorem sum_weights_nonneg (l : List (Bool × String × ℚ × ℚ))
    (h : ∀ t ∈ l, 0 < t.2.2.2) : 0 ≤ (l.map (fun t => t.2.2.2)).sum := by
  induction l with
  | nil => simp
  | cons t ts ih =>
    simp only [List.map_cons, List.sum_cons]
    have h1 := h t (by simp)
    have h2 : 0 ≤ (ts.map (fun t => t.2.2.2)).sum :=
      ih (fun x hx => h x (by simp [hx]))
    linarith

theorem sum_weights_pos_iff (l : List (Bool × String × ℚ × ℚ))
    (h : ∀ t ∈ l, 0 < t.2.2.2) :
    0 < (l.map (fun t => t.2.2.2)).sum ↔ l ≠ [] := by
  cases l with
  | nil => simp
  | cons t ts =>
    simp only [List.map_cons, List.sum_cons]
    have h1 := h t (by simp)
    have h2 : 0 ≤ (ts.map (fun t => t.2.2.2)).sum :=
      sum_weights_nonneg ts (fun x hx => h x (by simp [hx]))
    constructor
    · intro _
      simp
    · intro _
      linarith

theorem sum_products_bounds (l : List (Bool × String × ℚ × ℚ))
    (h : ∀ t ∈ l, (0 ≤ t.2.2.1 ∧ t.2.2.1 ≤ 1) ∧ 0 < t.2.2.2) :
    0 ≤ (l.map (fun t => t.2.2.1 * t.2.2.2)).sum ∧
      (l.map (fun t => t.2.2.1 * t.2.2.2)).sum ≤ (l.map (fun t => t.2.2.2)).sum := by
  induction l with
  | nil => simp
  | cons t ts ih =>
    simp only [List.map_cons, List.sum_cons]
    have h1 := h t (by simp)
    have h2 := ih (fun x hx => h x (by simp [hx]))
    constructor
    · nlinarith [h1.1.1, h1.2.le, h2.1]
    · nlinarith [h1.1.1, h1.1.2, h1.2, h2.2]

theorem round2_nonneg {q : ℚ} (h : 0 ≤ q) : 0 ≤ round2 q := by
  unfold round2
  have hf : (0 : ℤ) ≤ ⌊q * 100 + 1 / 2⌋ := by
    apply Int.le_floor.mpr
    push_cast
    linarith
  positivity

theorem round2_le_one {q : ℚ} (h : q ≤ 1) : round2 q ≤ 1 := by
  unfold round2
  have hf : ⌊q * 100 + 1 / 2⌋ < 101 := by
    apply Int.floor_lt.mpr
    push_cast
    linarith
  have hf2 : ((⌊q * 100 + 1 / 2⌋ : ℤ) : ℚ) ≤ 100 := by
    exact_mod_cast Int.lt_add_one_iff.mp hf
  linarith

theorem round2_one : round2 1 = 1 := by
  unfold round2
  norm_num

theorem strPresent_none : strPresent none = false := rfl

theorem solPresent_none : solPresent none = false := rfl

theorem factorTerms_mem_bounds (cy : Int) (p : Person) (pr : Profile) :
    ∀ t ∈ factorTerms cy p pr, (0 ≤ t.2.2.1 ∧ t.2.2.1 ≤ 1) ∧ 0 < t.2.2.2 := by
  intro t ht
  simp only [factorTerms, List.mem_cons, List.not_mem_nil, or_false] at ht
  rcases ht with h | h | h | h | h | h | h <;> subst h
  · exact ⟨⟨matchName_nonneg _ _, matchName_le_one _ _⟩, by norm_num⟩
  · exact ⟨⟨matchLocation_nonneg _ _, matchLocation_le_one _ _⟩, by norm_num⟩
  · exact ⟨⟨matchEmployerInBio_nonneg _ _, matchEmployerInBio_le_one _ _⟩, by norm_num⟩
  · exact ⟨⟨matchJobTitleInBio_nonneg _ _, matchJobTitleInBio_le_one _ _⟩, by norm_num⟩
  · exact ⟨⟨matchEmailToUsername_nonneg _ _, matchEmailToUsername_le_one _ _⟩, by norm_num⟩
  · exact ⟨⟨matchPhoneInBio_nonneg _ _, matchPhoneInBio_le_one _ _⟩, by norm_num⟩
  · exact ⟨⟨matchDateOfBirth_nonneg _ _ _, matchDateOfBirth_le_one _ _ _⟩, by norm_num⟩

/-- The overall score as renormalized weighted average over the applicable
factor terms. -/
theorem score_repr (cy : Int) (p : Person) (pr : Profile) :
    (calculateMatchScore cy p pr).score =
      if 0 < (((factorTerms cy p pr).filter (fun t => t.1)).map (fun t => t.2.2.2)).sum
      then round2 ((((factorTerms cy p pr).filter (fun t => t.1)).map
          (fun t => t.2.2.1 * t.2.2.2)).sum /
        (((factorTerms cy p pr).filter (fun t => t.1)).map (fun t => t.2.2.2)).sum)
      else 0 := by
  unfold calculateMatchScore
  simp only []
  rw [foldl_scoreStep_fst, foldl_scoreStep_weight]
  simp only [zero_add]

theorem score_eq_specOverall (cy : Int) (p : Person) (pr : Profile) :
    (calculateMatchScore cy p pr).score = specOverall (factorTerms cy p pr) := by
  rw [score_repr]
  unfold specOverall
  simp only []
  have hwpos : ∀ t ∈ (factorTerms cy p pr).filter (fun t => t.1), 0 < t.2.2.2 :=
    fun t ht => (factorTerms_mem_bounds cy p pr t (List.mem_of_mem_filter ht)).2
  by_cases happ : (factorTerms cy p pr).filter (fun t => t.1) = []
  · rw [happ]
    simp
  · have hW := (sum_weights_pos_iff _ hwpos).mpr happ
    rw [if_pos hW, if_neg (by simpa [List.isEmpty_iff] using happ)]

theorem aggregate_nonneg (cy : Int) (p : Person) (pr : Profile) :
    0 ≤ (calculateMatchScore cy p pr).score := by
  rw [score_repr]
  split_ifs with hW
  · have hb := sum_products_bounds ((factorTerms cy p pr).filter (fun t => t.1))
      (fun t ht => factorTerms_mem_bounds cy p pr t (List.mem_of_mem_filter ht))
    exact round2_nonneg (div_nonneg hb.1 hW.le)
  · norm_num

theorem aggregate_le_one (cy : Int) (p : Person) (pr : Profile) :
    (calculateMatchScore cy p pr).score ≤ 1 := by
  rw [score_repr]
  split_ifs with hW
  · have hb := sum_products_bounds ((factorTerms cy p pr).filter (fun t => t.1))
      (fun t ht => factorTerms_mem_bounds cy p pr t (List.mem_of_mem_filter ht))
    exact round2_le_one ((div_le_one hW).mpr hb.2)
  · norm_num

/-- Claim C2: every field matcher returns a value in [0,1], and the overall
score of the aggregator is in [0,1]. -/
theorem all_scores_in_unit_interval :
    (∀ a b, 0 ≤ matchName a b ∧ matchName a b ≤ 1) ∧
    (∀ a b, 0 ≤ matchLocation a b ∧ matchLocation a b ≤ 1) ∧
    (∀ a b, 0 ≤ matchEmployerInBio a b ∧ matchEmployerInBio a b ≤ 1) ∧
    (∀ a b, 0 ≤ matchJobTitleInBio a b ∧ matchJobTitleInBio a b ≤ 1) ∧
    (∀ a b, 0 ≤ matchEmailToUsername a b ∧ matchEmailToUsername a b ≤ 1) ∧
    (∀ a b, 0 ≤ matchPhoneInBio a b ∧ matchPhoneInBio a b ≤ 1) ∧
    (∀ cy a b, 0 ≤ matchDateOfBirth cy a b ∧ matchDateOfBirth cy a b ≤ 1) ∧
    (∀ cy p pr, 0 ≤ (calculateMatchScore cy p pr).score ∧
      (calculateMatchScore cy p pr).score ≤ 1) :=
  ⟨fun a b => ⟨matchName_nonneg a b, matchName_le_one a b⟩,
   fun a b => ⟨matchLocation_nonneg a b, matchLocation_le_one a b⟩,
   fun a b => ⟨matchEmployerInBio_nonneg a b, matchEmployerInBio_le_one a b⟩,
   fun a b => ⟨matchJobTitleInBio_nonneg a b, matchJobTitleInBio_le_one a b⟩,
   fun a b => ⟨matchEmailToUsername_nonneg a b, matchEmailToUsername_le_one a b⟩,
   fun a b => ⟨matchPhoneInBio_nonneg a b, matchPhoneInBio_le_one a b⟩,
   fun cy a b => ⟨matchDateOfBirth_nonneg cy a b, matchDateOfBirth_le_one cy a b⟩,
   fun cy p pr => ⟨aggregate_nonneg cy p pr, aggregate_le_one cy p pr⟩⟩

/-- With only the name present and a perfect name match, the overall score
is exactly 1 (renormalization over the applicable subset). -/
theorem nameOnly_perfect_score (cy : Int) (p : Person) (pr : Profile)
    (hl : p.location = none) (he : p.employer = none) (hj : p.jobTitle = none)
    (hm : p.email = none) (hp : p.phone = none) (hd : p.dateOfBirth = none)
    (hname : strPresent p.name = true)
    (hdn : strPresent (displayNameOf pr) = true)
    (hmn : matchName p.name (displayNameOf pr) = 1) :
    (calculateMatchScore cy p pr).score = 1 := by
  rw [score_repr]
  simp only [factorTerms, hl, he, hj, hm, hp, hd, hname, hdn, hmn,
    strPresent_none, solPresent_none, Bool.true_and, Bool.false_and]
  norm_num [round2_one]

/-- Claim C1: the aggregator is the weight-renormalized rounded average over
exactly the applicable factor terms (0 when none applies), and a person with
only a name whose name matcher returns 1 against the resolved display name
scores exactly 1. -/
theorem aggregator_matches_spec :
    (∀ (cy : Int) (p : Person) (pr : Profile),
      (calculateMatchScore cy p pr).score = specOverall (factorTerms cy p pr)) ∧
    (∀ (cy : Int) (p : Person) (pr : Profile),
      p.location = none → p.employer = none → p.jobTitle = none →
      p.email = none → p.phone = none → p.dateOfBirth = none →
      strPresent p.name = true → strPresent (displayNameOf pr) = true →
      matchName p.name (displayNameOf pr) = 1 →
      (calculateMatchScore cy p pr).score = 1) :=
  ⟨score_eq_specOverall,
   fun cy p pr hl he hj hm hp hd hname hdn hmn =>
     nameOnly_perfect_score cy p pr hl he hj hm hp hd hname hdn hmn⟩

/-- Witness for `aggregator_matches_spec` at a concrete name-only person. -/
theorem aggregator_matches_spec_witness :
    (calculateMatchScore 2026 { name := some ("Jane Doe".toList) }
      { platform := "x".toList, username := "janedoe".toList,
        display_name := some ("Jane Doe".toList) }).score = 1 :=
  aggregator_matches_spec.2 2026 { name := some ("Jane Doe".toList) }
    { platform := "x".toList, username := "janedoe".toList,
      display_name := some ("Jane Doe".toList) }
    rfl rfl rfl rfl rfl rfl (by decide) (by decide) (by decide)

/-! ## Totality: matchers degrade to 0 on missing or empty operands -/

theorem jsTrim_all_ws {s : Str} (h : s.all jsWS = true) : jsTrim s = [] := by
  have h1 : s.dropWhile jsWS = [] := by
    rw [List.dropWhile_eq_nil_iff]
    intro x hx
    exact (List.all_eq_true.mp h) x hx
  unfold jsTrim
  rw [h1]
  rfl

theorem matchName_ws_left {s : Str} (h : s.all jsWS = true) (b : Option Str) :
    matchName (some s) b = 0 := by
  cases b with
  | none => rfl
  | some t =>
    rw [matchName_eq, jsTrim_all_ws h]
    rfl

theorem matchName_ws_right {s : Str} (h : s.all jsWS = true) (a : Option Str) :
    matchName a (some s) = 0 := by
  cases a with
  | none => rfl
  | some t =>
    rw [matchName_eq, jsTrim_all_ws h]
    simp

theorem matchDateOfBirth_unparseable {d : Str} (hp : parseYear d = none)
    (cy : Int) (b : Str) : matchDateOfBirth cy (some d) (some b) = 0 := by
  unfold matchDateOfBirth
  simp only [hp]
  split_ifs <;> rfl

/-- Claim C3: every matcher is total and returns exactly 0 when either
operand is missing (`undefined`) or empty — the empty string everywhere, a
whitespace-only string where the matcher trims (the name matcher), and the
empty sequence for email/phone — and an unparseable date of birth also
yields 0. -/
theorem matchers_degrade_to_zero :
    ((∀ b, matchName none b = 0) ∧ (∀ a, matchName a none = 0) ∧
     (∀ b, matchName (some []) b = 0) ∧ (∀ a, matchName a (some []) = 0) ∧
     (∀ s b, s.all jsWS = true → matchName (some s) b = 0) ∧
     (∀ a s, s.all jsWS = true → matchName a (some s) = 0)) ∧
    ((∀ b, matchLocation none b = 0) ∧ (∀ a, matchLocation a none = 0) ∧
     (∀ b, matchLocation (some []) b = 0) ∧ (∀ a, matchLocation a (some []) = 0)) ∧
    ((∀ b, matchEmployerInBio none b = 0) ∧ (∀ a, matchEmployerInBio a none = 0) ∧
     (∀ b, matchEmployerInBio (some []) b = 0) ∧
     (∀ a, matchEmployerInBio a (some []) = 0)) ∧
    ((∀ b, matchJobTitleInBio none b = 0) ∧ (∀ a, matchJobTitleInBio a none = 0) ∧
     (∀ b, matchJobTitleInBio (some []) b = 0) ∧
     (∀ a, matchJobTitleInBio a (some []) = 0)) ∧
    ((∀ b, matchEmailToUsername none b = 0) ∧ (∀ a, matchEmailToUsername a none = 0) ∧
     (∀ b, matchEmailToUsername (some (.one [])) b = 0) ∧
     (∀ b, matchEmailToUsername (some (.many [])) b = 0) ∧
     (∀ a, matchEmailToUsername a (some []) = 0)) ∧
    ((∀ b, matchPhoneInBio none b = 0) ∧ (∀ a, matchPhoneInBio a none = 0) ∧
     (∀ b, matchPhoneInBio (some (.one [])) b = 0) ∧
     (∀ b, matchPhoneInBio (some (.many [])) b = 0) ∧
     (∀ a, matchPhoneInBio a (some []) = 0)) ∧
    ((∀ cy b, matchDateOfBirth cy none b = 0) ∧
     (∀ cy a, matchDateOfBirth cy a none = 0) ∧
     (∀ cy b, matchDateOfBirth cy (some []) b = 0) ∧
     (∀ cy a, matchDateOfBirth cy a (some []) = 0) ∧
     (∀ cy d b, parseYear d = none → matchDateOfBirth cy (some d) (some b) = 0)) := by
  refine ⟨⟨?_, ?_, ?_, ?_, ?_, ?_⟩, ⟨?_, ?_, ?_, ?_⟩, ⟨?_, ?_, ?_, ?_⟩,
    ⟨?_, ?_, ?_, ?_⟩, ⟨?_, ?_, ?_, ?_, ?_⟩, ⟨?_, ?_, ?_, ?_, ?_⟩,
    ⟨?_, ?_, ?_, ?_, ?_⟩⟩
  · intro b; cases b <;> rfl
  · intro a; cases a <;> rfl
  · intro b; exact matchName_ws_left (by decide) b
  · intro a; exact matchName_ws_right (by decide) a
  · intro s b h; exact matchName_ws_left h b
  · intro a s h; exact matchName_ws_right h a
  · intro b; cases b <;> rfl
  · intro a; cases a <;> rfl
  · intro b; cases b <;> rfl
  · intro a
    cases a with
    | none => rfl
    | some s =>
      unfold matchLocation
      simp
  · intro b; cases b <;> rfl
  · intro a; cases a <;> rfl
  · intro b; cases b <;> rfl
  · intro a
    cases a with
    | none => rfl
    | some s =>
      unfold matchEmployerInBio
      simp
  · intro b; cases b <;> rfl
  · intro a; cases a <;> rfl
  · intro b; cases b <;> rfl
  · intro a
    cases a with
    | none => rfl
    | some s =>
      unfold matchJobTitleInBio
      simp
  · intro b; cases b <;> rfl
  · intro a; cases a <;> rfl
  · intro b; cases b <;> rfl
  · intro b
    cases b with
    | none => rfl
    | some u =>
      unfold matchEmailToUsername
      simp only [StrOrList.falsy, Bool.false_or]
      split_ifs <;> rfl
  · intro a
    cases a with
    | none => rfl
    | some es =>
      unfold matchEmailToUsername
      simp
  · intro b; cases b <;> rfl
  · intro a; cases a <;> rfl
  · intro b; cases b <;> rfl
  · intro b
    cases b with
    | none => rfl
    | some u =>
      unfold matchPhoneInBio
      simp only [StrOrList.falsy, Bool.false_or]
      split_ifs <;> rfl
  · intro a
    cases a with
    | none => rfl
    | some ps =>
      unfold matchPhoneInBio
      simp
  · intro cy b; cases b <;> rfl
  · intro cy a; cases a <;> rfl
  · intro cy b; cases b <;> rfl
  · intro cy a
    cases a with
    | none => rfl
    | some d =>
      unfold matchDateOfBirth
      simp
  · intro cy d b hp; exact matchDateOfBirth_unparseable hp cy b

/-- Witness for `matchers_degrade_to_zero`: whitespace-only name and
unparseable date of birth at concrete inputs. -/
theorem matchers_degrade_to_zero_witness :
    matchName (some ("  ".toList)) (some ("x".toList)) = 0 ∧
    parseYear ("not-a-date".toList) = none ∧
    matchDateOfBirth 2026 (some ("not-a-date".toList)) (some ("Born 1990".toList)) = 0 :=
  ⟨matchers_degrade_to_zero.1.2.2.2.2.1 ("  ".toList) (some ("x".toList)) (by decide),
   by decide,
   matchers_degrade_to_zero.2.2.2.2.2.2.2.2.2.2 2026 ("not-a-date".toList)
     ("Born 1990".toList) (by decide)⟩

/-! ## Ranking: permutation, descending order, stability -/

theorem insertByScore_perm (x : MatchResult) :
    ∀ l : List MatchResult, (insertByScore x l).Perm (x :: l) := by
  intro l
  induction l with
  | nil => exact List.Perm.refl _
  | cons y ys ih =>
    unfold insertByScore
    split_ifs
    · exact List.Perm.refl _
    · exact (ih.cons y).trans (List.Perm.swap x y ys)

theorem sortByScoreDesc_perm :
    ∀ l : List MatchResult, (sortByScoreDesc l).Perm l := by
  intro l
  induction l with
  | nil => exact List.Perm.refl _
  | cons x xs ih =>
    show (insertByScore x (sortByScoreDesc xs)).Perm (x :: xs)
    exact (insertByScore_perm x (sortByScoreDesc xs)).trans (ih.cons x)

theorem insertByScore_sorted (x : MatchResult) :
    ∀ l : List MatchResult,
      List.Pairwise (fun a b : MatchResult => b.score ≤ a.score) l →
      List.Pairwise (fun a b : MatchResult => b.score ≤ a.score) (insertByScore x l) := by
  intro l
  induction l with
  | nil =>
    intro _
    exact List.pairwise_singleton _ _
  | cons y ys ih =>
    intro hl
    rw [List.pairwise_cons] at hl
    unfold insertByScore
    split_ifs with h
    · rw [List.pairwise_cons]
      refine ⟨?_, List.pairwise_cons.mpr hl⟩
      intro z hz
      rcases List.mem_cons.mp hz with hz | hz
      · rw [hz]; exact h
      · exact le_trans (hl.1 z hz) h
    · rw [List.pairwise_cons]
      refine ⟨?_, ih hl.2⟩
      intro z hz
      have hz2 := (insertByScore_perm x ys).mem_iff.mp hz
      rcases List.mem_cons.mp hz2 with hz2 | hz2
      · rw [hz2]
        push_neg at h
        exact h.le
      · exact hl.1 z hz2

theorem sortByScoreDesc_sorted :
    ∀ l : List MatchResult,
      List.Pairwise (fun a b : MatchResult => b.score ≤ a.score) (sortByScoreDesc l) := by
  intro l
  induction l with
  | nil => exact List.Pairwise.nil
  | cons x xs ih => exact insertByScore_sorted x (sortByScoreDesc xs) ih

theorem insertByScore_filter (x : MatchResult) (q : ℚ) :
    ∀ l : List MatchResult,
      (insertByScore x l).filter (fun r => decide (r.score = q)) =
        ((x :: l).filter (fun r => decide (r.score = q))) := by
  intro l
  induction l with
  | nil => rfl
  | cons y ys ih =>
    unfold insertByScore
    split_ifs with h
    · rfl
    · push_neg at h
      by_cases hx : x.score = q
      · by_cases hy : y.score = q
        · exfalso
          rw [hx, hy] at h
          exact absurd h (lt_irrefl q)
        · simp only [List.filter_cons, ih]
          simp [hx, hy]
      · by_cases hy : y.score = q
        · simp only [List.filter_cons, ih]
          simp [hx, hy]
        · simp only [List.filter_cons, ih]
          simp [hx, hy]

theorem sortByScoreDesc_filter (q : ℚ) :
    ∀ l : List MatchResult,
      (sortByScoreDesc l).filter (fun r => decide (r.score = q)) =
        l.filter (fun r => decide (r.score = q)) := by
  intro l
  induction l with
  | nil => rfl
  | cons x xs ih =>
    show (insertByScore x (sortByScoreDesc xs)).filter _ = _
    rw [insertByScore_filter x q (sortByScoreDesc xs)]
    simp only [List.filter_cons, ih]

/-- Claim C4: `matchProfiles` returns one result per input profile (a
permutation of the per-profile scores), sorted by descending overall score,
stably: results with any given score appear in input order; the empty input
yields the empty output. -/
theorem matchProfiles_spec :
    (∀ (cy : Int) (p : Person) (ps : List Profile),
      (matchProfiles cy p ps).Perm (ps.map (calculateMatchScore cy p))) ∧
    (∀ (cy : Int) (p : Person) (ps : List Profile),
      List.Pairwise (fun a b : MatchResult => b.score ≤ a.score) (matchProfiles cy p ps)) ∧
    (∀ (cy : Int) (p : Person) (ps : List Profile) (q : ℚ),
      (matchProfiles cy p ps).filter (fun r => decide (r.score = q)) =
        (ps.map (calculateMatchScore cy p)).filter (fun r => decide (r.score = q))) ∧
    (∀ (cy : Int) (p : Person), matchProfiles cy p [] = []) :=
  ⟨fun cy p ps => sortByScoreDesc_perm (ps.map (calculateMatchScore cy p)),
   fun cy p ps => sortByScoreDesc_sorted (ps.map (calculateMatchScore cy p)),
   fun cy p ps q => sortByScoreDesc_filter q (ps.map (calculateMatchScore cy p)),
   fun _ _ => rfl⟩

/-! ## The initial-match branch of `matchName` -/

/-- Evaluation helper: the value of `similarity` from a computed distance
and maximum length. -/
theorem similarity_eval (a b : Str) (n m : Nat)
    (hn : levenshtein (lowerStr (jsTrim a)) (lowerStr (jsTrim b)) = n)
    (hm : max (jsTrim a).length (jsTrim b).length = m)
    (ha : jsTrim a ≠ []) (hb : jsTrim b ≠ []) :
    similarity a b = 1 - (n : ℚ) / (m : ℚ) := by
  rw [similarity_spec_eq, if_neg (by simp [ha, hb]), ← levenshtein_eq_levClassic, hn, hm]

/-- Counterexample to claim C6 as stated: for `"Jane Doe"` vs `"J. Doe"` the
profile's first token is `"j."` (length 2, not 1), so the initial-match
branch does not fire; the code falls through to full-string similarity and
returns 5/8 = 0.625, not `0.5 + similarity("doe","doe") * 0.3 = 0.8`. -/
theorem matchName_initial_claim_counterexample :
    matchName (some ("Jane Doe".toList)) (some ("J. Doe".toList)) = 5 / 8 ∧
    similarity ("doe".toList) ("doe".toList) = 1 ∧
    (5 : ℚ) / 8 ≠ 0.5 + 1 * 0.3 := by
  refine ⟨?_, similarity_self (by decide), by norm_num⟩
  have h1 : matchName (some ("Jane Doe".toList)) (some ("J. Doe".toList)) =
      similarity ("Jane Doe".toList) ("J. Doe".toList) := rfl
  rw [h1, similarity_eval ("Jane Doe".toList) ("J. Doe".toList) 3 8
    (by decide) (by decide) (by decide) (by decide)]
  norm_num

/-- Claim C6 (amended): the initial-match branch fires when the profile's
first token is a single character that the person's first token starts with
(so `"J Doe"`, not `"J. Doe"`), in which case the result is
`0.5 + similarity(lastPerson, lastProfile) * 0.3` when both names have more
than one token and 0.4 otherwise; `matchName "Jane Doe" "J Doe" = 0.8`,
while `"J. Doe"` falls through to full-string similarity, which for
`"Jane Doe"` still lies in [0.5, 1] (it is 0.625). -/
theorem matchName_initialBranch_amended :
    (∀ s t : Str,
      ((jsTrim s).isEmpty || (jsTrim t).isEmpty) = false →
      ((words (lowerStr (jsTrim s))).isEmpty ||
        (words (lowerStr (jsTrim t))).isEmpty) = false →
      (List.intercalate ([' ']) (words (lowerStr (jsTrim s))) ==
        List.intercalate ([' ']) (words (lowerStr (jsTrim t)))) = false →
      areNicknameVariants ((words (lowerStr (jsTrim s))).headD [])
        ((words (lowerStr (jsTrim t))).headD []) = false →
      (((words (lowerStr (jsTrim t))).headD []).length == 1 &&
        isPrefixL ((words (lowerStr (jsTrim t))).headD [])
          ((words (lowerStr (jsTrim s))).headD [])) = true →
      matchName (some s) (some t) =
        (if decide (1 < (words (lowerStr (jsTrim s))).length) &&
            decide (1 < (words (lowerStr (jsTrim t))).length) then
          0.5 + similarity ((words (lowerStr (jsTrim s))).getLastD [])
            ((words (lowerStr (jsTrim t))).getLastD []) * 0.3
        else 0.4)) ∧
    matchName (some ("Jane Doe".toList)) (some ("J Doe".toList)) = 0.8 ∧
    (0.5 ≤ matchName (some ("Jane Doe".toList)) (some ("J. Doe".toList)) ∧
      matchName (some ("Jane Doe".toList)) (some ("J. Doe".toList)) ≤ 1) := by
  have hjdot : matchName (some ("Jane Doe".toList)) (some ("J. Doe".toList)) =
      similarity ("Jane Doe".toList) ("J. Doe".toList) := rfl
  have hval : similarity ("Jane Doe".toList) ("J. Doe".toList) = 1 - (3 : ℚ) / 8 :=
    similarity_eval ("Jane Doe".toList) ("J. Doe".toList) 3 8
      (by decide) (by decide) (by decide) (by decide)
  refine ⟨?_, ?_, ?_, ?_⟩
  · intro s t h0 h1 h2 h3 h4
    rw [matchName_eq]
    rw [h0, h2, h4]
    rw [if_neg (by simp)]
    rw [h1, if_neg (by simp)]
    rw [if_neg (by simp), if_pos rfl]
    rw [h3]
    simp
  · have h1 : matchName (some ("Jane Doe".toList)) (some ("J Doe".toList)) =
        0.5 + similarity ("doe".toList) ("doe".toList) * 0.3 := rfl
    rw [h1, similarity_self (by decide)]
    norm_num
  · rw [hjdot, hval]
    norm_num
  · rw [hjdot, hval]
    norm_num

/-- Witness for `matchName_initialBranch_amended` at the concrete
single-character-initial input. -/
theorem matchName_initialBranch_amended_witness :
    matchName (some ("Jane Doe".toList)) (some ("J Doe".toList)) =
      0.5 + similarity ("doe".toList) ("doe".toList) * 0.3 := by
  have h := matchName_initialBranch_amended.1 ("Jane Doe".toList) ("J Doe".toList)
    (by decide) (by decide) (by decide) (by decide) (by decide)
  rw [h]
  have h2 : ((words (lowerStr (jsTrim ("Jane Doe".toList)))).getLastD []) =
      "doe".toList := by decide
  have h3 : ((words (lowerStr (jsTrim ("J Doe".toList)))).getLastD []) =
      "doe".toList := by decide
  rw [if_pos (by decide), h2, h3]

/-! ## Date-of-birth year extraction and scoring -/

/-- Counterexample to claim C7 as stated: the code's age guard is
`10 < age < 100`, so age 99 (not strictly between 10 and 99) does yield a
candidate year; and an extracted year equal to the person's birth year can
still score 0 when that year is 0, because `if (bioYear)` treats the number
0 as false. -/
theorem matchDateOfBirth_claim_counterexample :
    matchDateOfBirth 2026 (some ("1927-01-01".toList)) (some ("99 years old".toList)) = 1 ∧
    extractYearFromBio 2026 ("99 years old".toList) = some 1927 ∧
    matchDateOfBirth 2026 (some ("0000-01-01".toList)) (some ("born 0000".toList)) = 0 ∧
    parseYear ("0000-01-01".toList) = some 0 ∧
    extractYearFromBio 2026 ("born 0000".toList) = some 0 := by
  refine ⟨by decide, by decide, by decide, by decide, by decide⟩

/-- Claim C7 (amended): when the born pattern is absent, an age pattern
yields the candidate year `currentYear - age` exactly for ages with
`10 < age < 100` (i.e. 11–99); and when a nonzero year is extracted from the
bio, the score is 1 on equality with the person's birth year, 0.7 when they
differ by exactly 1, and 0 for any larger difference (a zero extracted year
is treated as no year at all). -/
theorem matchDateOfBirth_amended :
    (∀ (cy : Int) (bio : Str) (y : Int),
      scanFor bornAt bio = none → extractYearFromBio cy bio = some y →
      ∃ age : Nat, scanFor ageAt bio = some age ∧ 10 < age ∧ age < 100 ∧
        y = cy - (age : Int)) ∧
    (∀ (cy : Int) (d b : Str) (py byr : Int),
      d ≠ [] → b ≠ [] → parseYear d = some py →
      extractYearFromBio cy b = some byr → byr ≠ 0 →
      matchDateOfBirth cy (some d) (some b) =
        (if byr = py then 1 else if (byr - py).natAbs = 1 then 0.7 else 0)) := by
  constructor
  · intro cy bio y hb hy
    unfold extractYearFromBio at hy
    rw [hb] at hy
    rcases hage : scanFor ageAt bio with _ | age
    · rw [hage] at hy
      simp at hy
    · rw [hage] at hy
      simp only [] at hy
      by_cases hcond : (decide (10 < age) && decide (age < 100)) = true
      · rw [if_pos hcond] at hy
        have hy2 : y = cy - (age : Int) := by
          injection hy with hy3
          omega
        simp only [Bool.and_eq_true, decide_eq_true_eq] at hcond
        exact ⟨age, rfl, hcond.1, hcond.2, hy2⟩
      · rw [if_neg hcond] at hy
        simp at hy
  · intro cy d b py byr hd hb hpy hbyr hb0
    have hde : d.isEmpty = false := by
      cases d with
      | nil => exact absurd rfl hd
      | cons c t => rfl
    have hbe : b.isEmpty = false := by
      cases b with
      | nil => exact absurd rfl hb
      | cons c t => rfl
    unfold matchDateOfBirth
    simp only [hde, hbe, Bool.or_self, if_false, hpy, hbyr]
    rw [if_neg (fun h => hb0 (eq_of_beq h))]
    by_cases heq : byr = py
    · simp [heq]
    · rw [if_neg (fun h => heq (eq_of_beq h)), if_neg heq]
      by_cases habs : (byr - py).natAbs ≤ 1
      · have h1 : (byr - py).natAbs = 1 := by omega
        rw [if_pos habs, if_pos h1]
        norm_num
      · have h1 : ¬((byr - py).natAbs = 1) := by omega
        rw [if_neg habs, if_neg h1]
        norm_num

/-- Witness for `matchDateOfBirth_amended`: an off-by-one year scores 0.7. -/
theorem matchDateOfBirth_amended_witness :
    matchDateOfBirth 2026 (some ("1990-01-01".toList)) (some ("Born 1991".toList)) = 0.7 := by
  have h := matchDateOfBirth_amended.2 2026 ("1990-01-01".toList) ("Born 1991".toList)
    1990 1991 (by decide) (by decide) (by decide) (by decide) (by decide)
  rw [h]
  norm_num

/-! ## Ordering of the location checks -/

/-- Unfolding equation for `matchLocation` on present inputs. -/
theorem matchLocation_eq (s t : Str) : matchLocation (some s) (some t) =
    (if s.isEmpty || t.isEmpty then 0
     else if normalizeLocation s == normalizeLocation t then 1
     else if matchLocationAlias s t then 0.9
     else if jsIncludes (normalizeLocation s) (normalizeLocation t) ||
         jsIncludes (normalizeLocation t) (normalizeLocation s) then 0.85
     else similarity (normalizeLocation s) (normalizeLocation t)) := rfl

/-- Claim C8: `matchLocation` applies its checks in the fixed order
equality (1), alias (0.9), substring containment (0.85), similarity; the
alias check precedes the substring check, so an alias match scores 0.9
regardless of containment, as `"Bay Area"` vs `"San Francisco"` (which
contain neither each other) shows concretely. -/
theorem matchLocation_order_spec :
    (∀ s t : Str, s ≠ [] → t ≠ [] →
      normalizeLocation s = normalizeLocation t →
      matchLocation (some s) (some t) = 1) ∧
    (∀ s t : Str, s ≠ [] → t ≠ [] →
      normalizeLocation s ≠ normalizeLocation t →
      matchLocationAlias s t = true →
      matchLocation (some s) (some t) = 0.9) ∧
    (∀ s t : Str, s ≠ [] → t ≠ [] →
      normalizeLocation s ≠ normalizeLocation t →
      matchLocationAlias s t = false →
      (jsIncludes (normalizeLocation s) (normalizeLocation t) ||
        jsIncludes (normalizeLocation t) (normalizeLocation s)) = true →
      matchLocation (some s) (some t) = 0.85) ∧
    (∀ s t : Str, s ≠ [] → t ≠ [] →
      normalizeLocation s ≠ normalizeLocation t →
      matchLocationAlias s t = false →
      (jsIncludes (normalizeLocation s) (normalizeLocation t) ||
        jsIncludes (normalizeLocation t) (normalizeLocation s)) = false →
      matchLocation (some s) (some t) =
        similarity (normalizeLocation s) (normalizeLocation t)) ∧
    (matchLocation (some ("Bay Area".toList)) (some ("San Francisco".toList)) = 0.9 ∧
     jsIncludes (normalizeLocation ("Bay Area".toList))
       (normalizeLocation ("San Francisco".toList)) = false ∧
     jsIncludes (normalizeLocation ("San Francisco".toList))
       (normalizeLocation ("Bay Area".toList)) = false) := by
  have hempty : ∀ s : Str, s ≠ [] → s.isEmpty = false := by
    intro s hs
    cases s with
    | nil => exact absurd rfl hs
    | cons c cs => rfl
  refine ⟨?_, ?_, ?_, ?_, by rfl, by decide, by decide⟩
  · intro s t hs ht hnorm
    rw [matchLocation_eq, hempty s hs, hempty t ht]
    rw [if_neg (by simp), if_pos (by simp [hnorm])]
  · intro s t hs ht hnorm halias
    rw [matchLocation_eq, hempty s hs, hempty t ht]
    rw [if_neg (by simp), if_neg (fun h => hnorm (eq_of_beq h)), if_pos halias]
  · intro s t hs ht hnorm halias hsub
    rw [matchLocation_eq, hempty s hs, hempty t ht]
    rw [if_neg (by simp), if_neg (fun h => hnorm (eq_of_beq h))]
    rw [halias, if_neg (by simp), if_pos hsub]
  · intro s t hs ht hnorm halias hsub
    rw [matchLocation_eq, hempty s hs, hempty t ht]
    rw [if_neg (by simp), if_neg (fun h => hnorm (eq_of_beq h))]
    rw [halias, if_neg (by simp), hsub, if_neg (by simp)]

/-- Witness for `matchLocation_order_spec` at the alias-but-not-substring
pair. -/
theorem matchLocation_order_spec_witness :
    matchLocation (some ("Bay Area".toList)) (some ("San Francisco".toList)) = 0.9 :=
  matchLocation_order_spec.2.1 ("Bay Area".toList) ("San Francisco".toList)
    (by decide) (by decide) (by decide) (by decide)

/-! ## Email matching: first qualifying email wins -/

/-- Unfolding equation for `matchEmailToUsername` on present inputs. -/
theorem matchEmailToUsername_eq (es : StrOrList) (u : Str) :
    matchEmailToUsername (some es) (some u) =
      (if es.falsy || u.isEmpty then 0
       else emailLoop (lowerStr u) (stripNorm (lowerStr u)) es.toL) := rfl

/-- The email loop returns the score of the first email whose tier score is
nonzero. -/
theorem emailLoop_firstQualifying (a b : Str) :
    ∀ es : List Str, emailLoop a b es = firstQualifying (es.map (emailTier a b)) := by
  intro es
  induction es with
  | nil => rfl
  | cons e es ih =>
    have hstep : emailLoop a b (e :: es) =
        if emailTier a b e == 0 then emailLoop a b es else emailTier a b e := rfl
    rw [hstep]
    cases h : (emailTier a b e == 0) with
    | true =>
      rw [if_pos rfl, ih]
      unfold firstQualifying
      simp [List.filter_cons, h]
    | false =>
      rw [if_neg (by simp)]
      unfold firstQualifying
      simp [List.filter_cons, h]

/-- Stepping the email loop when the head email qualifies. -/
theorem emailLoop_cons_ne (uL uN e : Str) (es : List Str)
    (h : emailTier uL uN e ≠ 0) :
    emailLoop uL uN (e :: es) = emailTier uL uN e := by
  have hstep : emailLoop uL uN (e :: es) =
      if emailTier uL uN e == 0 then emailLoop uL uN es else emailTier uL uN e := rfl
  rw [hstep, beq_eq_false_iff_ne.mpr h]
  rfl

/-- Claim C9: emails are evaluated in order and the first email hitting any
tier decides the result (no search for a best later match); a single email
behaves as the one-element sequence; the tiers are case-insensitive local
part equality (1), stripped-form equality (0.9), stripped containment (0.7),
else the email does not qualify.  Concretely, with username `"john"`,
`["jo@x.com", "john@x.com"]` scores 0.7 from the first email even though the
second would score 1. -/
theorem matchEmailToUsername_firstMatch_spec :
    (∀ (u : Str) (es : List Str), u ≠ [] →
      matchEmailToUsername (some (.many es)) (some u) =
        firstQualifying (es.map (emailTier (lowerStr u) (stripNorm (lowerStr u))))) ∧
    (∀ (u e : Str), u ≠ [] → e ≠ [] →
      matchEmailToUsername (some (.one e)) (some u) =
        firstQualifying ([e].map (emailTier (lowerStr u) (stripNorm (lowerStr u))))) ∧
    (∀ a b e : Str, emailTier a b e =
      (if emailLocal e == a then 1
       else if stripNorm (emailLocal e) == b then 0.9
       else if jsIncludes b (stripNorm (emailLocal e)) ||
           jsIncludes (stripNorm (emailLocal e)) b then 0.7
       else 0)) ∧
    (matchEmailToUsername
        (some (.many [("jo@x.com".toList), ("john@x.com".toList)]))
        (some ("john".toList)) = 0.7 ∧
     emailTier (lowerStr ("john".toList)) (stripNorm (lowerStr ("john".toList)))
       ("john@x.com".toList) = 1) := by
  have hempty : ∀ s : Str, s ≠ [] → s.isEmpty = false := by
    intro s hs
    cases s with
    | nil => exact absurd rfl hs
    | cons c cs => rfl
  refine ⟨?_, ?_, fun a b e => rfl, ?_, by rfl⟩
  · intro u es hu
    rw [matchEmailToUsername_eq, hempty u hu]
    rw [if_neg (by simp [StrOrList.falsy])]
    exact emailLoop_firstQualifying (lowerStr u) (stripNorm (lowerStr u)) es
  · intro u e hu he
    rw [matchEmailToUsername_eq, hempty u hu]
    rw [if_neg (by simp [StrOrList.falsy, hempty e he])]
    exact emailLoop_firstQualifying (lowerStr u) (stripNorm (lowerStr u)) [e]
  · rw [matchEmailToUsername_eq]
    rw [if_neg (by simp [StrOrList.falsy])]
    show emailLoop (lowerStr ("john".toList)) (stripNorm (lowerStr ("john".toList)))
      [("jo@x.com".toList), ("john@x.com".toList)] = 0.7
    have ht1 : emailTier (lowerStr ("john".toList)) (stripNorm (lowerStr ("john".toList)))
        ("jo@x.com".toList) = 0.7 := rfl
    rw [emailLoop_cons_ne _ _ _ _ (by rw [ht1]; norm_num), ht1]

/-- Witness for `matchEmailToUsername_firstMatch_spec`: dotted local part
against the concatenated username scores 0.9 through the single-email
path. -/
theorem matchEmailToUsername_firstMatch_spec_witness :
    matchEmailToUsername (some (.one ("john.doe@email.com".toList)))
      (some ("johndoe".toList)) = 0.9 := by
  have h := matchEmailToUsername_firstMatch_spec.2.1 ("johndoe".toList)
    ("john.doe@email.com".toList) (by decide) (by decide)
  rw [h]
  have ht : emailTier (lowerStr ("johndoe".toList)) (stripNorm (lowerStr ("johndoe".toList)))
      ("john.doe@email.com".toList) = 0.9 := rfl
  simp only [List.map_cons, List.map_nil, ht]
  unfold firstQualifying
  rw [List.filter_cons]
  have hb : ((0.9 : ℚ) == 0) = false := beq_eq_false_iff_ne.mpr (by norm_num)
  rw [hb]
  rfl

/-! ## Purely strippable local parts always partially match -/

theorem jsIncludes_nil_needle (x : Str) : jsIncludes x [] = true := by
  cases x with
  | nil => rfl
  | cons c t => rfl

theorem stripNorm_nil_of_all {l : Str}
    (h : l.all (fun c => c.isDigit || c == '.' || c == '_' || c == '-') = true) :
    stripNorm l = [] := by
  unfold stripNorm
  rw [List.filter_eq_nil_iff]
  intro a ha
  rw [List.mem_filter] at ha
  have h3 := (List.all_eq_true.mp h) a ha.1
  have haf := ha.2
  simp only [Bool.or_eq_true, beq_iff_eq] at h3
  rcases h3 with ((h3 | h3) | h3) | h3
  · simp [h3]
  · subst h3
    exact absurd haf (by decide)
  · subst h3
    exact absurd haf (by decide)
  · subst h3
    exact absurd haf (by decide)

theorem emailTier_ge_of_stripNil (uL uN e : Str)
    (hstrip : stripNorm (emailLocal e) = []) : 0.7 ≤ emailTier uL uN e := by
  unfold emailTier
  simp only [hstrip]
  split_ifs with h1 h2 h3
  · norm_num
  · norm_num
  · norm_num
  · exfalso
    apply h3
    simp [jsIncludes_nil_needle]

/-- Claim C10: an email whose local part consists only of digits, dots,
underscores and hyphens strips to the empty string, which equals or is
contained in any stripped username, so against any non-empty username the
matcher returns at least 0.7 (whether the email is passed alone or in a
sequence; a bare empty string is falsy and short-circuits to 0, hence the
non-emptiness proviso in the single-email form). -/
theorem numericLocal_email_spec :
    ∀ e u : Str,
      (emailLocal e).all (fun c => c.isDigit || c == '.' || c == '_' || c == '-') = true →
      u ≠ [] →
      (e ≠ [] → 0.7 ≤ matchEmailToUsername (some (.one e)) (some u)) ∧
      0.7 ≤ matchEmailToUsername (some (.many [e])) (some u) := by
  intro e u hall hu
  have hstrip : stripNorm (emailLocal e) = [] := stripNorm_nil_of_all hall
  have htier : 0.7 ≤ emailTier (lowerStr u) (stripNorm (lowerStr u)) e :=
    emailTier_ge_of_stripNil (lowerStr u) (stripNorm (lowerStr u)) e hstrip
  have htier0 : (emailTier (lowerStr u) (stripNorm (lowerStr u)) e == 0) = false := by
    apply beq_eq_false_iff_ne.mpr
    intro h0
    rw [h0] at htier
    norm_num at htier
  have hloop : emailLoop (lowerStr u) (stripNorm (lowerStr u)) [e] =
      emailTier (lowerStr u) (stripNorm (lowerStr u)) e := by
    have hstep : emailLoop (lowerStr u) (stripNorm (lowerStr u)) [e] =
        if emailTier (lowerStr u) (stripNorm (lowerStr u)) e == 0 then
          emailLoop (lowerStr u) (stripNorm (lowerStr u)) []
        else emailTier (lowerStr u) (stripNorm (lowerStr u)) e := rfl
    rw [hstep, htier0]
    rfl
  have hempty : u.isEmpty = false := by
    cases u with
    | nil => exact absurd rfl hu
    | cons c cs => rfl
  constructor
  · intro he
    have heempty : e.isEmpty = false := by
      cases e with
      | nil => exact absurd rfl he
      | cons c cs => rfl
    rw [matchEmailToUsername_eq, hempty]
    rw [if_neg (by simp [StrOrList.falsy, heempty])]
    show 0.7 ≤ emailLoop (lowerStr u) (stripNorm (lowerStr u)) [e]
    rw [hloop]
    exact htier
  · rw [matchEmailToUsername_eq, hempty]
    rw [if_neg (by simp [StrOrList.falsy])]
    show 0.7 ≤ emailLoop (lowerStr u) (stripNorm (lowerStr u)) [e]
    rw [hloop]
    exact htier

/-- Witness for `numericLocal_email_spec` at a purely numeric address. -/
theorem numericLocal_email_spec_witness :
    0.7 ≤ matchEmailToUsername (some (.one ("123@x.com".toList)))
      (some ("whoever".toList)) :=
  (numericLocal_email_spec ("123@x.com".toList) ("whoever".toList)
    (by decide) (by decide)).1 (by decide)

end ProfileMapper
